import Mathlib

/-!
# measurementDevice: DC voltmeter and frequency counter on the ADuC841

Shallow embedding of `src/dcVoltage.c` and `src/frequencyCounter.c`.

Data model of the target.  Both files are written in the Keil C51 dialect
(`sbit`, `sfr16`, `interrupt n`, `<ADUC841.H>`) for an 8052 core: `char` is 8
bits, `int` is 16 bits, `long` is 32 bits, and operands narrower than `int` are
promoted to the 16-bit `int` before arithmetic.  The sources rely on this
themselves (`2500uL`, `65536uL`, "the scaling process will require 32 bits").
`typedef.h` is not part of the sources; `uint8`, `uint16`, `uint32` are read as
the unsigned 8-, 16- and 32-bit types their names say.

Machine integers are natural numbers reduced modulo `2 ^ width` at every
assignment.  The ADC data register, which the code only reads, is an input of
its handler; the timer 0 count registers, which the code reads and clears, are
part of the state.  Interrupt handlers are functions on the shared state; the
places where they can run between two statements of the control loop are
explicit arguments of the loop body.
-/

namespace Display

/-- What the SPI master and the chip-select pin put on the wire. -/
inductive SpiEvent where
  /-- A write of `level` to `LOAD` (P2.7), the active-low chip select. -/
  | LOAD (level : Nat)
  /-- A byte written to `SPIDAT` and shifted out. -/
  | SPIDAT (byte : Nat)
  deriving DecidableEq

/-- The function `sendData(uint8 destAddress, uint16 value)`, identical in both
files.  The two `while (ISPI == 0)` loops wait for the hardware to raise the
transfer-complete flag and `delay(1)` is an empty loop; none of them writes to
the link, so the transcript of one call is the four writes below.  `SPIDAT` is
an 8-bit register, so the 16-bit `value` is cut to its low byte. -/
def sendData (destAddress value : Nat) : List SpiEvent :=
  let destAddress := destAddress % 256
  let value := value % 65536
  [SpiEvent.LOAD 0, SpiEvent.SPIDAT destAddress, SpiEvent.SPIDAT (value % 256), SpiEvent.LOAD 1]

/-- The loop of `displayNumber`:
`for (i = 1; i <= NUM_DIGITS; i++) { digitValue = value % 10; sendData(i, digitValue); value = value / 10; }`
The first argument counts the iterations still to run (`NUM_DIGITS + 1 - i`). -/
def displayNumberLoop : Nat → Nat → Nat → List SpiEvent
  | 0, _, _ => []
  | remaining + 1, i, value =>
    let digitValue := (value % 10) % 256
    sendData i digitValue ++ displayNumberLoop remaining (i + 1) (value / 10)

/-- The function `displayNumber(uint16 value)`, with the macro `NUM_DIGITS` of
the including file as first argument.  The argument is converted to `uint16`
at the call. -/
def displayNumber (NUM_DIGITS value : Nat) : List SpiEvent :=
  displayNumberLoop NUM_DIGITS 1 (value % 65536)

def DECODE_ADDR : Nat := 9
def INTENSITY_ADDR : Nat := 10
def SCAN_LIMIT_ADDR : Nat := 11
def SHUTDOWN_ADDR : Nat := 12
def DISPLAY_ADDR : Nat := 15

/-- The function `setupDisplay`, identical in both files, with the macro
`NUM_DIGITS` of the including file as argument. -/
def setupDisplay (NUM_DIGITS : Nat) : List SpiEvent :=
  sendData DECODE_ADDR 255 ++
  sendData SHUTDOWN_ADDR 1 ++
  sendData DISPLAY_ADDR 0 ++
  sendData INTENSITY_ADDR NUM_DIGITS ++
  sendData SCAN_LIMIT_ADDR (NUM_DIGITS - 1)

/-- Reading of a transcript as a sequence of two-byte transactions
`(register address, data byte)`: each transaction is chip select low, two
bytes, chip select high.  Reading stops at the first event that does not fit. -/
def frames : List SpiEvent → List (Nat × Nat)
  | SpiEvent.LOAD 0 :: SpiEvent.SPIDAT a :: SpiEvent.SPIDAT v :: SpiEvent.LOAD 1 :: rest =>
    (a, v) :: frames rest
  | _ => []

/-- The number a display shows when digit register `a` holds `v`:
the sum of `v * 10 ^ (a - 1)` over the transactions. -/
def decode (txns : List (Nat × Nat)) : Nat :=
  (txns.map (fun p => p.2 * 10 ^ (p.1 - 1))).sum

end Display

namespace DcVoltage

open Display

def NUM_DIGITS : Nat := 8
def NUM_SAMPLES : Nat := 1024
def VREF : Nat := 2500

/-- The volatile globals of `dcVoltage.c`. -/
structure State where
  /-- Global `volatile uint16 sampleCount`. -/
  sampleCount : Nat
  /-- Global `volatile uint32 sampleSum`. -/
  sampleSum : Nat
  /-- Global `volatile uint32 dcAverage`. -/
  dcAverage : Nat
  deriving DecidableEq

/-- All globals are initialised to 0. -/
def State.init : State := { sampleCount := 0, sampleSum := 0, dcAverage := 0 }

/-- The function `readADCSample`; the argument is the content of the 16-bit
register `ADCDATA` at the time of the call. -/
def readADCSample (ADCDATA : Nat) : Nat :=
  let adcValue := ADCDATA % 65536
  let adcValue := adcValue &&& 0x0FFF
  adcValue

/-- The handler `adcI` (interrupt 6). -/
def adcI (ADCDATA : Nat) (s : State) : State :=
  let s := { s with sampleSum := (s.sampleSum + readADCSample ADCDATA) % 2 ^ 32 }
  { s with sampleCount := (s.sampleCount + 1) % 2 ^ 16 }

/-- A run of `adcI`, one invocation per register value, in order. -/
def runAdcI (samples : List Nat) (s : State) : State :=
  samples.foldl (fun s x => adcI x s) s

/-- The conversions that complete, and so the invocations of `adcI` that
happen, between the statements of the snapshot in one pass of the loop body:
after the test and before the copy, after the copy and before
`sampleSum = 0`, after `sampleSum = 0` and before `sampleCount %= NUM_SAMPLES`.
Each list holds the `ADCDATA` values read. -/
structure Arrivals where
  beforeCopy : List Nat
  beforeReset : List Nat
  beforeReduce : List Nat

/-- No conversion completes during the snapshot. -/
def Arrivals.quiet : Arrivals := { beforeCopy := [], beforeReset := [], beforeReduce := [] }

/-- Result of one pass of the body of `while (1)` in `main`. -/
structure Pass where
  /-- the globals after the pass -/
  state : State
  /-- the local `sampleAverage` of `main` -/
  sampleAverage : Nat
  /-- the value the pass copied into its local `sampleSumCopy`, 0 when the
  block did not run -/
  sampleSumCopy : Nat
  /-- the value `sampleCount` held when `sampleCount %= NUM_SAMPLES` executed -/
  countAtReduce : Nat
  /-- the argument of the call of `displayNumber`, when the call is made -/
  shown : Option Nat
  /-- what the pass wrote to the display link -/
  spi : List SpiEvent

/-- One pass of the body of `while (1)` in `main`. -/
def mainLoopBody (irq : Arrivals) (sampleAverage : Nat) (s : State) : Pass :=
  if s.sampleCount = NUM_SAMPLES then
    let s := runAdcI irq.beforeCopy s
    let sampleSumCopy := s.sampleSum
    let s := runAdcI irq.beforeReset s
    let s := { s with sampleSum := 0 }
    let s := runAdcI irq.beforeReduce s
    let countAtReduce := s.sampleCount
    let s := { s with sampleCount := s.sampleCount % NUM_SAMPLES }
    let sampleAverage := (sampleSumCopy >>> 10) % 2 ^ 16
    let s := { s with dcAverage := (sampleAverage * VREF) % 2 ^ 32 }
    let s := { s with dcAverage := s.dcAverage >>> 12 }
    let arg := s.dcAverage % 2 ^ 16
    { state := s, sampleAverage := sampleAverage, sampleSumCopy := sampleSumCopy,
      countAtReduce := countAtReduce, shown := some arg, spi := displayNumber NUM_DIGITS arg }
  else
    { state := s, sampleAverage := sampleAverage, sampleSumCopy := 0,
      countAtReduce := s.sampleCount, shown := none, spi := [] }

/-- One turn of `while (1)`: the conversions that complete before the test of
`sampleCount`, and those that complete during the snapshot. -/
structure Turn where
  before : List Nat
  during : Arrivals

/-- The turns of `while (1)` in `main`, as far as the list of turns goes: what
they write to the display link. -/
def whileLoop : List Turn → Nat → State → List SpiEvent
  | [], _, _ => []
  | t :: ts, sampleAverage, s =>
    let p := mainLoopBody t.during sampleAverage (runAdcI t.before s)
    p.spi ++ whileLoop ts p.sampleAverage p.state

/-- The function `main`: what it writes to the display link up to the end of
the given turns of the loop.  Of the setup calls only `setupDisplay` writes to
the link; `setupSPICON`, `setupADC`, `setupIE` and `setupT2` assign control
registers.  Conversions start with `setupT2`, the last call of the setup. -/
def main (turns : List Turn) : List SpiEvent :=
  let sampleAverage := 0
  setupDisplay NUM_DIGITS ++ whileLoop turns sampleAverage State.init

end DcVoltage

namespace FrequencyCounter

open Display

def NUM_DIGITS : Nat := 6
def NUM_PULSE_SAMPLES : Nat := 512
def FCLOCK : Nat := 11059200

/-- The file uses `overflowCount`, `N` and `frequency` without declaring them
(their declarations are not in the sources).  They are unsigned integer
variables; their widths in bits are parameters of the embedding. -/
structure Decl where
  overflowCountBits : Nat
  NBits : Nat
  frequencyBits : Nat

/-- The declarations that lose nothing: all three variables are `uint32`. -/
def Decl.wide : Decl := { overflowCountBits := 32, NBits := 32, frequencyBits := 32 }

/-- The globals of `frequencyCounter.c` and the timer 0 count registers. -/
structure State where
  /-- Global `volatile uint16 halfPulseCount`. -/
  halfPulseCount : Nat
  /-- Global `volatile uint32 halfPulseSum`. -/
  halfPulseSum : Nat
  /-- Global `volatile uint32 currentCount`. -/
  currentCount : Nat
  /-- Global `overflowCount`. -/
  overflowCount : Nat
  /-- Global `N`. -/
  N : Nat
  /-- Global `frequency`. -/
  frequency : Nat
  /-- Register `TH0`, the high byte of the timer 0 count. -/
  TH0 : Nat
  /-- Register `TL0`, the low byte of the timer 0 count. -/
  TL0 : Nat
  deriving DecidableEq

/-- All globals are 0 at the start of the loop and the timer starts at 0. -/
def State.init : State :=
  { halfPulseCount := 0, halfPulseSum := 0, currentCount := 0, overflowCount := 0,
    N := 0, frequency := 0, TH0 := 0, TL0 := 0 }

/-- Conversion of a 16-bit `int`, given by its bit pattern, to `uint32`: a
pattern with the top bit set is a negative value `p - 65536`, which converts
to `p - 65536 + 2 ^ 32`. -/
def intToUint32 (pattern : Nat) : Nat :=
  if pattern % 2 ^ 16 < 2 ^ 15 then pattern % 2 ^ 16 else pattern % 2 ^ 16 + (2 ^ 32 - 2 ^ 16)

/-- The handler `T0ISR` (interrupt 1). -/
def T0ISR (d : Decl) (s : State) : State :=
  { s with overflowCount := (s.overflowCount + 1) % 2 ^ d.overflowCountBits }

/-- The handler `INT0ISR` (interrupt 0).  In `(TH0 << 8) | TL0` both 8-bit
registers are promoted to the 16-bit `int`; the `int` result is converted to
the `uint32` `currentCount`.  The product `overflowCount*65536uL` and the two
additions are `unsigned long` arithmetic. -/
def INT0ISR (s : State) : State :=
  let s := { s with currentCount := intToUint32 ((((s.TH0 % 256) <<< 8) % 2 ^ 16) ||| (s.TL0 % 256)) }
  let s := { s with currentCount := (s.currentCount + (s.overflowCount * 65536) % 2 ^ 32) % 2 ^ 32 }
  let s := { s with overflowCount := 0 }
  let s := { s with TH0 := 0x00 }
  let s := { s with TL0 := 0x00 }
  let s := { s with halfPulseCount := (s.halfPulseCount + 1) % 2 ^ 16 }
  { s with halfPulseSum := (s.halfPulseSum + s.currentCount) % 2 ^ 32 }

/-- The free-running 16-bit timer 0 has counted to `t`. -/
def timerReads (t : Nat) (s : State) : State :=
  { s with TH0 := (t / 256) % 256, TL0 := t % 256 }

/-- An interrupt request served by the frequency counter. -/
inductive Irq where
  /-- Timer 0 wrapped round: `T0ISR` runs. -/
  | overflow
  /-- An edge on P3.2 when the timer count is `t`: `INT0ISR` runs. -/
  | edge (t : Nat)

/-- Service of one interrupt request. -/
def serve (d : Decl) (s : State) : Irq → State
  | Irq.overflow => T0ISR d s
  | Irq.edge t => INT0ISR (timerReads t s)

/-- Service of a sequence of interrupt requests, in order. -/
def serveAll (d : Decl) (irqs : List Irq) (s : State) : State :=
  irqs.foldl (serve d) s

/-- The interrupts served between the statements of the snapshot in one pass
of the loop body: after the test and before the copy, after the copy and
before `halfPulseSum = 0`, after `halfPulseSum = 0` and before
`halfPulseCount = 0`. -/
structure Arrivals where
  beforeCopy : List Irq
  beforeSumReset : List Irq
  beforeCountReset : List Irq

/-- No interrupt is served during the snapshot. -/
def Arrivals.quiet : Arrivals := { beforeCopy := [], beforeSumReset := [], beforeCountReset := [] }

/-- The locals of `main`. -/
structure Locals where
  /-- Local `uint16 halfPulseAverage`. -/
  halfPulseAverage : Nat
  /-- Local `uint32 halfPulseSumCopy`. -/
  halfPulseSumCopy : Nat
  deriving DecidableEq

/-- Result of one pass of the body of `while (1)` in `main`. -/
structure Pass where
  /-- the globals and timer registers after the pass -/
  state : State
  /-- the locals of `main` after the pass -/
  locals : Locals
  /-- the value `halfPulseCount` held when `halfPulseCount = 0` executed -/
  countAtReset : Nat
  /-- the argument of the call of `displayNumber`, when the call is made -/
  shown : Option Nat
  /-- what the pass wrote to the display link -/
  spi : List SpiEvent

/-- One pass of the body of `while (1)` in `main`.  The result is `none` when
the pass evaluates `FCLOCK/N` with `N == 0`: the source has no test of `N`
before the division, and C gives a division by zero no meaning.  The shift
`halfPulseAverage << 1` is 16-bit `unsigned int` arithmetic; `FCLOCK` does not
fit 16 bits, so the division is `unsigned long` arithmetic; the trailing
`delay(20000)` is an empty loop. -/
def mainLoopBody (d : Decl) (irq : Arrivals) (l : Locals) (s : State) : Option Pass :=
  if s.halfPulseCount = NUM_PULSE_SAMPLES then
    let s := serveAll d irq.beforeCopy s
    let l := { l with halfPulseSumCopy := s.halfPulseSum }
    let s := serveAll d irq.beforeSumReset s
    let s := { s with halfPulseSum := 0 }
    let s := serveAll d irq.beforeCountReset s
    let countAtReset := s.halfPulseCount
    let s := { s with halfPulseCount := 0 }
    let l := { l with halfPulseAverage := (l.halfPulseSumCopy >>> 9) % 2 ^ 16 }
    let s := { s with N := ((l.halfPulseAverage <<< 1) % 2 ^ 16) % 2 ^ d.NBits }
    if s.N = 0 then none
    else
      let s := { s with frequency := ((FCLOCK / s.N) % 2 ^ 32) % 2 ^ d.frequencyBits }
      let arg := s.frequency % 2 ^ 16
      some { state := s, locals := l, countAtReset := countAtReset,
             shown := some arg, spi := displayNumber NUM_DIGITS arg }
  else
    some { state := s, locals := l, countAtReset := s.halfPulseCount, shown := none, spi := [] }

/-- One turn of `while (1)`: the interrupts served before the test of
`halfPulseCount`, and those served during the snapshot. -/
structure Turn where
  before : List Irq
  during : Arrivals

/-- The turns of `while (1)` in `main`, as far as the list of turns goes: what
they write to the display link.  Nothing is said of what follows a division by
zero. -/
def whileLoop (d : Decl) : List Turn → Locals → State → List SpiEvent
  | [], _, _ => []
  | t :: ts, l, s =>
    match mainLoopBody d t.during l (serveAll d t.before s) with
    | none => []
    | some p => p.spi ++ whileLoop d ts p.locals p.state

/-- The function `main`: what it writes to the display link up to the end of
the given turns of the loop.  Of the setup calls only `setupDisplay` writes to
the link.  `early` are the interrupts served after `setupIE` and before
`halfPulseCount = 0`. -/
def main (d : Decl) (early : List Irq) (turns : List Turn) : List SpiEvent :=
  let l : Locals := { halfPulseAverage := 0, halfPulseSumCopy := 0 }
  let s := serveAll d early State.init
  let s := { s with halfPulseCount := 0 }
  setupDisplay NUM_DIGITS ++ whileLoop d turns l s

/-- The interrupts of one half-pulse that lasts `t + k * 65536` ticks: `k`
wrap-arounds of timer 0, then the edge when the count is `t`. -/
def halfPulse (k t : Nat) : List Irq :=
  List.replicate k Irq.overflow ++ [Irq.edge t]

/-- The interrupts of `n` such half-pulses in a row. -/
def halfPulses : Nat → Nat → Nat → List Irq
  | 0, _, _ => []
  | n + 1, k, t => halfPulse k t ++ halfPulses n k t

end FrequencyCounter

/-! ## The voltage accumulator -/

namespace DcVoltage

open Display

theorem readADCSample_eq_mod (x : Nat) : readADCSample x = x % 4096 := by
  have h : (x % 65536) &&& 2 ^ 12 - 1 = (x % 65536) % 2 ^ 12 :=
    Nat.and_pow_two_sub_one_eq_mod (x % 65536) 12
  have h2 : (x % 65536) % 4096 = x % 4096 := Nat.mod_mod_of_dvd x (by decide)
  simp only [readADCSample]
  norm_num at h
  omega

theorem readADCSample_eq_and (x : Nat) : readADCSample x = x &&& 0x0FFF := by
  have h : x &&& 2 ^ 12 - 1 = x % 2 ^ 12 := Nat.and_pow_two_sub_one_eq_mod x 12
  rw [readADCSample_eq_mod]
  norm_num at h
  omega

theorem readADCSample_le (x : Nat) : readADCSample x ≤ 4095 := by
  rw [readADCSample_eq_mod]
  omega

theorem sum_readADCSample_le (xs : List Nat) :
    (xs.map readADCSample).sum ≤ 4095 * xs.length := by
  induction xs with
  | nil => simp
  | cons x xs ih =>
    have := readADCSample_le x
    simp only [List.map_cons, List.sum_cons, List.length_cons]
    omega

theorem runAdcI_nil (s : State) : runAdcI [] s = s := rfl

theorem runAdcI_cons (x : Nat) (xs : List Nat) (s : State) :
    runAdcI (x :: xs) s = runAdcI xs (adcI x s) := rfl

/-- While neither variable wraps, a run of `adcI` adds the masked samples to
`sampleSum`, adds their number to `sampleCount` and leaves `dcAverage`. -/
theorem runAdcI_exact (xs : List Nat) (s : State)
    (hsum : s.sampleSum + 4095 * xs.length < 2 ^ 32)
    (hcount : s.sampleCount + xs.length < 2 ^ 16) :
    runAdcI xs s =
      { sampleCount := s.sampleCount + xs.length,
        sampleSum := s.sampleSum + (xs.map readADCSample).sum,
        dcAverage := s.dcAverage } := by
  induction xs generalizing s with
  | nil => simp [runAdcI_nil]
  | cons x xs ih =>
    have hx := readADCSample_le x
    simp only [List.length_cons] at hsum hcount
    have e1 : (s.sampleSum + readADCSample x) % 2 ^ 32 = s.sampleSum + readADCSample x :=
      Nat.mod_eq_of_lt (by omega)
    have e2 : (s.sampleCount + 1) % 2 ^ 16 = s.sampleCount + 1 :=
      Nat.mod_eq_of_lt (by omega)
    rw [runAdcI_cons, ih]
    · simp only [adcI, e1, e2, List.map_cons, List.sum_cons, List.length_cons]
      congr 1 <;> omega
    · simp only [adcI, e1]
      omega
    · simp only [adcI, e2]
      omega

/-- The count after a run of `adcI`, with the wrap-around of `uint16`. -/
theorem runAdcI_sampleCount (xs : List Nat) (s : State) (hcount : s.sampleCount < 2 ^ 16) :
    (runAdcI xs s).sampleCount = (s.sampleCount + xs.length) % 2 ^ 16 := by
  induction xs generalizing s with
  | nil => simp only [runAdcI_nil, List.length_nil, Nat.add_zero, Nat.mod_eq_of_lt hcount]
  | cons x xs ih =>
    rw [runAdcI_cons, ih]
    · simp only [adcI, List.length_cons]
      omega
    · simp only [adcI]
      omega

/-- The sum after a run of `adcI`, with the wrap-around of `uint32`. -/
theorem runAdcI_sampleSum (xs : List Nat) (s : State) (hsum : s.sampleSum < 2 ^ 32) :
    (runAdcI xs s).sampleSum = (s.sampleSum + (xs.map readADCSample).sum) % 2 ^ 32 := by
  induction xs generalizing s with
  | nil => simp only [runAdcI_nil, List.map_nil, List.sum_nil, Nat.add_zero, Nat.mod_eq_of_lt hsum]
  | cons x xs ih =>
    rw [runAdcI_cons, ih]
    · simp only [adcI, List.map_cons, List.sum_cons]
      omega
    · simp only [adcI]
      omega

/-- C1.  Voltage accumulator: from `sampleSum = 0`, `sampleCount = 0`, after one
invocation of `adcI` for each of `N <= 1024` values of the ADC data register,
`sampleSum` is the exact arithmetic sum of the values with their top four bits
masked off (`value AND 0x0FFF`) and `sampleCount` is `N`. -/
theorem adcI_accumulates (xs : List Nat) (hN : xs.length ≤ 1024) :
    (runAdcI xs State.init).sampleSum = (xs.map (fun x => x &&& 0x0FFF)).sum ∧
    (runAdcI xs State.init).sampleCount = xs.length := by
  have hfun : (fun x => x &&& 0x0FFF) = readADCSample := by
    funext x
    exact (readADCSample_eq_and x).symm
  rw [hfun, runAdcI_exact xs State.init (by simp only [State.init]; omega)
    (by simp only [State.init]; omega)]
  simp [State.init]

/-- Witness for C1 at three register values, one with channel bits set. -/
theorem adcI_accumulates_witness :
    [0xFFFF, 0x1234, 7].length ≤ 1024 ∧
    ((runAdcI [0xFFFF, 0x1234, 7] State.init).sampleSum
        = ([0xFFFF, 0x1234, 7].map (fun x => x &&& 0x0FFF)).sum ∧
      (runAdcI [0xFFFF, 0x1234, 7] State.init).sampleCount = [0xFFFF, 0x1234, 7].length) :=
  ⟨by decide, adcI_accumulates [0xFFFF, 0x1234, 7] (by decide)⟩

/-- The values one triggered pass computes from the sum it copies, when that
sum is a sum of 1024 twelve-bit samples. -/
theorem voltageBody_triggered (irq : Arrivals) (avg : Nat) (s : State)
    (hcount : s.sampleCount = 1024) (hS : s.sampleSum ≤ 1024 * 4095)
    (hcopy : irq.beforeCopy = []) :
    (mainLoopBody irq avg s).sampleAverage = s.sampleSum >>> 10 ∧
    (mainLoopBody irq avg s).state.dcAverage = ((s.sampleSum >>> 10) * 2500) >>> 12 ∧
    (mainLoopBody irq avg s).shown = some (((s.sampleSum >>> 10) * 2500) >>> 12) ∧
    (mainLoopBody irq avg s).spi
      = displayNumber 8 (((s.sampleSum >>> 10) * 2500) >>> 12) := by
  have havg : s.sampleSum >>> 10 ≤ 4095 := by
    rw [Nat.shiftRight_eq_div_pow]
    omega
  have e1 : (s.sampleSum >>> 10) % 2 ^ 16 = s.sampleSum >>> 10 := Nat.mod_eq_of_lt (by omega)
  have e2 : ((s.sampleSum >>> 10) * 2500) % 2 ^ 32 = (s.sampleSum >>> 10) * 2500 :=
    Nat.mod_eq_of_lt (by omega)
  have hmv : ((s.sampleSum >>> 10) * 2500) >>> 12 ≤ 2499 := by
    rw [Nat.shiftRight_eq_div_pow ((s.sampleSum >>> 10) * 2500)]
    omega
  have e3 : (((s.sampleSum >>> 10) * 2500) >>> 12) % 2 ^ 16
      = ((s.sampleSum >>> 10) * 2500) >>> 12 := Nat.mod_eq_of_lt (by omega)
  simp only [mainLoopBody, hcount, NUM_SAMPLES, hcopy, runAdcI_nil, if_true, VREF, e1, e2, e3,
    NUM_DIGITS, and_self]

/-- C2.  Voltage snapshot value: in a state with `sampleCount == 1024` and
`sampleSum = S <= 1024 * 4095`, one pass of the loop body (no sample arriving
between the test and the copy) hands `displayNumber` exactly
`((S >> 10) * 2500) >> 12`; the `uint16` variable `sampleAverage` holds
`S >> 10`, the 32-bit product holds `(S >> 10) * 2500` and the `uint16` cast
loses nothing. -/
theorem snapshot_value (irq : Arrivals) (avg : Nat) (s : State)
    (hcount : s.sampleCount = 1024) (hS : s.sampleSum ≤ 1024 * 4095)
    (hcopy : irq.beforeCopy = []) :
    (mainLoopBody irq avg s).sampleAverage = s.sampleSum >>> 10 ∧
    (mainLoopBody irq avg s).state.dcAverage = ((s.sampleSum >>> 10) * 2500) >>> 12 ∧
    (mainLoopBody irq avg s).shown = some (((s.sampleSum >>> 10) * 2500) >>> 12) ∧
    (mainLoopBody irq avg s).spi
      = displayNumber 8 (((s.sampleSum >>> 10) * 2500) >>> 12) :=
  voltageBody_triggered irq avg s hcount hS hcopy

/-- Witness for C2 at `S = 1024 * 2048`, with a sample arriving after the copy. -/
theorem snapshot_value_witness :
    (1024 : Nat) = 1024 ∧ 1024 * 2048 ≤ 1024 * 4095 ∧ ([] : List Nat) = [] ∧
    (mainLoopBody { beforeCopy := [], beforeReset := [7], beforeReduce := [] } 0
        { sampleCount := 1024, sampleSum := 1024 * 2048, dcAverage := 0 }).shown
      = some ((((1024 * 2048) >>> 10) * 2500) >>> 12) :=
  ⟨rfl, by decide, rfl,
    (snapshot_value { beforeCopy := [], beforeReset := [7], beforeReduce := [] } 0
      { sampleCount := 1024, sampleSum := 1024 * 2048, dcAverage := 0 } rfl (by decide) rfl).2.2.1⟩

/-- C8, as stated, fails: a sample that `adcI` adds after `sampleSum = 0` and
before the reduction raises the count to 1025 and is left in `sampleSum`. -/
theorem snapshot_sum_not_zero :
    (mainLoopBody { beforeCopy := [], beforeReset := [], beforeReduce := [5] } 0
        { sampleCount := 1024, sampleSum := 1024 * 2048, dcAverage := 0 }).countAtReduce = 1025 ∧
    (mainLoopBody { beforeCopy := [], beforeReset := [], beforeReduce := [5] } 0
        { sampleCount := 1024, sampleSum := 1024 * 2048, dcAverage := 0 }).state.sampleCount = 1 ∧
    (mainLoopBody { beforeCopy := [], beforeReset := [], beforeReduce := [5] } 0
        { sampleCount := 1024, sampleSum := 1024 * 2048, dcAverage := 0 }).state.sampleSum = 5 ∧
    (mainLoopBody { beforeCopy := [], beforeReset := [], beforeReduce := [5] } 0
        { sampleCount := 1024, sampleSum := 1024 * 2048, dcAverage := 0 }).state.sampleSum ≠ 0 := by
  decide

/-- C8, amended.  Voltage snapshot post-state: after one pass of the loop body
triggered at `sampleCount == 1024`, whatever samples arrive during the
snapshot, `sampleCount` equals the value it held when the reduction executed
modulo 1024 (that value is 1024 plus the number of arrivals, as `uint16`), and
`sampleSum` equals the sum of the samples that `adcI` added after
`sampleSum = 0` executed.  With no arrival both are 0; with one arrival the
count is 1.  The only other global, `dcAverage`, is the one the pass assigns. -/
theorem snapshot_post_state (irq : Arrivals) (avg : Nat) (s : State)
    (hcount : s.sampleCount = 1024) :
    (mainLoopBody irq avg s).countAtReduce
      = (1024 + (irq.beforeCopy.length + irq.beforeReset.length + irq.beforeReduce.length))
          % 2 ^ 16 ∧
    (mainLoopBody irq avg s).state.sampleCount
      = (mainLoopBody irq avg s).countAtReduce % 1024 ∧
    (mainLoopBody irq avg s).state.sampleSum
      = (irq.beforeReduce.map (fun x => x &&& 0x0FFF)).sum % 2 ^ 32 ∧
    (irq.beforeCopy.length + irq.beforeReset.length + irq.beforeReduce.length = 0 →
      (mainLoopBody irq avg s).state.sampleCount = 0 ∧
      (mainLoopBody irq avg s).state.sampleSum = 0) ∧
    (irq.beforeCopy.length + irq.beforeReset.length + irq.beforeReduce.length = 1 →
      (mainLoopBody irq avg s).state.sampleCount = 1) := by
  have hfun : (fun x => x &&& 0x0FFF) = readADCSample := by
    funext x
    exact (readADCSample_eq_and x).symm
  have h1 : (runAdcI irq.beforeCopy s).sampleCount
      = (1024 + irq.beforeCopy.length) % 2 ^ 16 := by
    rw [runAdcI_sampleCount _ _ (by omega), hcount]
  have h2 : (runAdcI irq.beforeReset (runAdcI irq.beforeCopy s)).sampleCount
      = (1024 + (irq.beforeCopy.length + irq.beforeReset.length)) % 2 ^ 16 := by
    rw [runAdcI_sampleCount _ _ (by omega), h1]
    omega
  have h3 : (runAdcI irq.beforeReduce
        { runAdcI irq.beforeReset (runAdcI irq.beforeCopy s) with sampleSum := 0 }).sampleCount
      = (1024 + (irq.beforeCopy.length + irq.beforeReset.length + irq.beforeReduce.length))
          % 2 ^ 16 := by
    rw [runAdcI_sampleCount _ _ (by simp only; omega)]
    simp only [h2]
    omega
  have h4 : (runAdcI irq.beforeReduce
        { runAdcI irq.beforeReset (runAdcI irq.beforeCopy s) with sampleSum := 0 }).sampleSum
      = (irq.beforeReduce.map readADCSample).sum % 2 ^ 32 := by
    rw [runAdcI_sampleSum _ _ (by simp only; omega)]
    simp only [Nat.zero_add]
  simp only [mainLoopBody, hcount, NUM_SAMPLES, if_true, h3, h4, hfun, true_and]
  refine ⟨?_, ?_⟩
  · intro h0
    have hr : irq.beforeReduce = [] := List.length_eq_zero.mp (by omega)
    rw [h0, hr]
    decide
  · intro hone
    rw [hone]
    decide

/-- Witness for C8 at one sample arriving before the copy. -/
theorem snapshot_post_state_witness :
    (1024 : Nat) = 1024 ∧
    (mainLoopBody { beforeCopy := [9], beforeReset := [], beforeReduce := [] } 0
        { sampleCount := 1024, sampleSum := 1024 * 2048, dcAverage := 0 }).state.sampleCount = 1 :=
  ⟨rfl,
    (snapshot_post_state { beforeCopy := [9], beforeReset := [], beforeReduce := [] } 0
      { sampleCount := 1024, sampleSum := 1024 * 2048, dcAverage := 0 } rfl).2.2.2.2 rfl⟩

/-- The state after 1024 conversions that all read the twelve-bit value `v`. -/
theorem runAdcI_replicate (v : Nat) (hv : v ≤ 4095) :
    runAdcI (List.replicate 1024 v) State.init
      = { sampleCount := 1024, sampleSum := 1024 * v, dcAverage := 0 } := by
  have hr : readADCSample v = v := by
    rw [readADCSample_eq_mod]
    omega
  rw [runAdcI_exact _ _ (by simp only [State.init, List.length_replicate]; decide)
    (by simp only [State.init, List.length_replicate]; decide)]
  simp only [State.init, List.length_replicate, List.map_replicate, List.sum_replicate, hr,
    smul_eq_mul, Nat.zero_add]

end DcVoltage

/-! ## The digit encoder -/

namespace Display

theorem frames_sendData_append (a v : Nat) (rest : List SpiEvent) :
    frames (sendData a v ++ rest) = (a % 256, v % 65536 % 256) :: frames rest := by
  simp [sendData, frames]

theorem digit_mod (v : Nat) : v % 10 % 256 = v % 10 := by
  omega

theorem digit_byte (v : Nat) : v % 10 % 256 % 65536 % 256 = v % 10 := by
  omega

/-- The loop as the sequence of its calls of `sendData`: iteration `j` (from 0)
sends digit `j` of the value to address `i + j`. -/
theorem displayNumberLoop_calls (n i v : Nat) :
    displayNumberLoop n i v
      = (List.range n).flatMap (fun j => sendData (i + j) (v / 10 ^ j % 10)) := by
  induction n generalizing i v with
  | zero => simp [displayNumberLoop]
  | succ n ih =>
    rw [displayNumberLoop, ih, List.range_succ_eq_map, List.flatMap_cons, List.flatMap_map]
    simp only [digit_mod, Nat.add_zero, pow_zero, Nat.div_one, Function.comp_def, Nat.succ_eq_add_one]
    congr 1
    apply List.flatMap_congr
    intro j _
    rw [Nat.div_div_eq_div_mul, pow_succ, Nat.mul_comm 10 (10 ^ j), Nat.add_assoc,
      Nat.add_comm 1 j]

/-- The transactions of the loop. -/
theorem frames_displayNumberLoop (n i v : Nat) :
    frames (displayNumberLoop n i v)
      = (List.range n).map (fun j => ((i + j) % 256, v / 10 ^ j % 10)) := by
  induction n generalizing i v with
  | zero => simp [displayNumberLoop, frames]
  | succ n ih =>
    rw [displayNumberLoop, List.range_succ_eq_map]
    simp only [frames_sendData_append, ih, digit_byte, List.map_cons, List.map_map, Nat.add_zero,
      pow_zero, Nat.div_one, Function.comp_def, Nat.succ_eq_add_one]
    congr 1
    apply List.map_congr_left
    intro j _
    rw [Nat.div_div_eq_div_mul, pow_succ, Nat.mul_comm 10 (10 ^ j), Nat.add_assoc,
      Nat.add_comm 1 j]

/-- The transactions of `displayNumber` for at most 255 digits: addresses
`1 .. NUM_DIGITS` in increasing order, address `j + 1` carrying digit `j`. -/
theorem frames_displayNumber (N v : Nat) (hN : N ≤ 255) (hv : v < 65536) :
    frames (displayNumber N v) = (List.range N).map (fun j => (j + 1, v / 10 ^ j % 10)) := by
  rw [displayNumber, frames_displayNumberLoop, Nat.mod_eq_of_lt hv]
  apply List.map_congr_left
  intro j hj
  have hlt : j < N := List.mem_range.mp hj
  have e : (1 + j) % 256 = j + 1 := by omega
  rw [e]

theorem displayNumber_calls (N v : Nat) (hv : v < 65536) :
    displayNumber N v
      = (List.range N).flatMap (fun j => sendData (j + 1) (v / 10 ^ j % 10)) := by
  rw [displayNumber, displayNumberLoop_calls, Nat.mod_eq_of_lt hv]
  apply List.flatMap_congr
  intro j _
  rw [Nat.add_comm 1 j]

/-- Decoding the digits `0 .. n - 1` of `x`, least significant first, gives
`x mod 10 ^ n`. -/
theorem decode_digits (n x : Nat) :
    decode ((List.range n).map (fun j => (j + 1, x / 10 ^ j % 10))) = x % 10 ^ n := by
  induction n with
  | zero => simp [decode, Nat.mod_one]
  | succ n ih =>
    simp only [decode] at ih
    simp only [decode, List.range_succ, List.map_append, List.sum_append, List.map_cons,
      List.map_nil, List.sum_cons, List.sum_nil, Nat.add_zero, Nat.add_sub_cancel, ih]
    rw [Nat.mod_pow_succ, Nat.mul_comm]

end Display

namespace Display

/-- C7.  Digit encoder output: for a 16-bit value `v` and `N = NUM_DIGITS` of
either program, `displayNumber(v)` makes exactly `N` calls of `sendData`, to
the addresses `1, 2, ..., N` in this order; the call for address `i` carries
`(v / 10 ^ (i - 1)) mod 10`, and every data value sent is at most 9. -/
theorem displayNumber_transactions (N v : Nat)
    (hN : N = DcVoltage.NUM_DIGITS ∨ N = FrequencyCounter.NUM_DIGITS) (hv : v < 65536) :
    displayNumber N v
      = (List.range N).flatMap (fun j => sendData (j + 1) (v / 10 ^ j % 10)) ∧
    frames (displayNumber N v) = (List.range N).map (fun j => (j + 1, v / 10 ^ j % 10)) ∧
    (frames (displayNumber N v)).length = N ∧
    ∀ p ∈ frames (displayNumber N v), p.2 ≤ 9 := by
  have hN255 : N ≤ 255 := by
    rcases hN with h | h <;> rw [h] <;> decide
  have hf := frames_displayNumber N v hN255 hv
  refine ⟨displayNumber_calls N v hv, hf, ?_, ?_⟩
  · rw [hf, List.length_map, List.length_range]
  · intro p hp
    rw [hf, List.mem_map] at hp
    obtain ⟨j, _, hj⟩ := hp
    rw [← hj]
    simp only
    omega

/-- Witness for C7 at `N = 8`, `v = 1250`. -/
theorem displayNumber_transactions_witness :
    (8 = DcVoltage.NUM_DIGITS ∨ 8 = FrequencyCounter.NUM_DIGITS) ∧ 1250 < 65536 ∧
    frames (displayNumber 8 1250)
      = (List.range 8).map (fun j => (j + 1, 1250 / 10 ^ j % 10)) :=
  ⟨Or.inl rfl, by decide,
    (displayNumber_transactions 8 1250 (Or.inl rfl) (by decide)).2.1⟩

/-- C6.  Digit decomposition round trip: for a 16-bit `x` and `N = 8` or
`N = 6`, the number decoded from the data bytes that `displayNumber(x)` sends
to addresses `1 .. N`, the sum of `d_i * 10 ^ (i - 1)`, equals `x mod 10 ^ N`,
which is `x`; encoding the decoded number sends the same transcript. -/
theorem digit_round_trip (N x : Nat)
    (hN : N = DcVoltage.NUM_DIGITS ∨ N = FrequencyCounter.NUM_DIGITS) (hx : x < 65536) :
    decode (frames (displayNumber N x)) = x % 10 ^ N ∧
    x % 10 ^ N = x ∧
    displayNumber N (decode (frames (displayNumber N x))) = displayNumber N x := by
  have hN255 : N ≤ 255 := by
    rcases hN with h | h <;> rw [h] <;> decide
  have hpow : x < 10 ^ N := by
    rcases hN with h | h
    · rw [h, DcVoltage.NUM_DIGITS]
      omega
    · rw [h, FrequencyCounter.NUM_DIGITS]
      omega
  have hdec : decode (frames (displayNumber N x)) = x % 10 ^ N := by
    rw [frames_displayNumber N x hN255 hx, decode_digits]
  have hmod : x % 10 ^ N = x := Nat.mod_eq_of_lt hpow
  refine ⟨hdec, hmod, ?_⟩
  rw [hdec, hmod]

/-- Witness for C6 at `N = 6`, `x = 65535`. -/
theorem digit_round_trip_witness :
    (6 = DcVoltage.NUM_DIGITS ∨ 6 = FrequencyCounter.NUM_DIGITS) ∧ 65535 < 65536 ∧
    decode (frames (displayNumber 6 65535)) = 65535 % 10 ^ 6 :=
  ⟨Or.inr rfl, by decide, (digit_round_trip 6 65535 (Or.inr rfl) (by decide)).1⟩

end Display

namespace DcVoltage

open Display

/-- C9.  End-to-end voltage pipeline: from the zeroed state, 1024 invocations
of `adcI` that each read the twelve-bit value `v`, followed by one pass of the
loop body, give the average `v` and send the decimal digits of
`(v * 2500) >> 12` to addresses `1 .. 8`; for `v = 2048` the number shown is
1250, the digits 0, 5, 2, 1, 0, 0, 0, 0 on addresses `1 .. 8`. -/
theorem voltage_end_to_end (v : Nat) (hv : v ≤ 4095) :
    (mainLoopBody Arrivals.quiet 0 (runAdcI (List.replicate 1024 v) State.init)).sampleAverage
      = v ∧
    (mainLoopBody Arrivals.quiet 0 (runAdcI (List.replicate 1024 v) State.init)).shown
      = some ((v * 2500) >>> 12) ∧
    frames (mainLoopBody Arrivals.quiet 0 (runAdcI (List.replicate 1024 v) State.init)).spi
      = (List.range 8).map (fun j => (j + 1, ((v * 2500) >>> 12) / 10 ^ j % 10)) ∧
    (mainLoopBody Arrivals.quiet 0 (runAdcI (List.replicate 1024 2048) State.init)).shown
      = some 1250 ∧
    frames (mainLoopBody Arrivals.quiet 0 (runAdcI (List.replicate 1024 2048) State.init)).spi
      = [(1, 0), (2, 5), (3, 2), (4, 1), (5, 0), (6, 0), (7, 0), (8, 0)] := by
  have key : ∀ w : Nat, w ≤ 4095 →
      (mainLoopBody Arrivals.quiet 0 (runAdcI (List.replicate 1024 w) State.init)).sampleAverage
        = w ∧
      (mainLoopBody Arrivals.quiet 0 (runAdcI (List.replicate 1024 w) State.init)).shown
        = some ((w * 2500) >>> 12) ∧
      frames (mainLoopBody Arrivals.quiet 0 (runAdcI (List.replicate 1024 w) State.init)).spi
        = (List.range 8).map (fun j => (j + 1, ((w * 2500) >>> 12) / 10 ^ j % 10)) := by
    intro w hw
    have havg : (1024 * w) >>> 10 = w := by
      rw [Nat.shiftRight_eq_div_pow]
      omega
    have hmv : (w * 2500) >>> 12 < 65536 := by
      rw [Nat.shiftRight_eq_div_pow]
      omega
    have h := voltageBody_triggered Arrivals.quiet 0
      { sampleCount := 1024, sampleSum := 1024 * w, dcAverage := 0 } rfl
      (by simp only; omega) rfl
    simp only [havg] at h
    rw [runAdcI_replicate w hw]
    refine ⟨h.1, h.2.2.1, ?_⟩
    rw [h.2.2.2, frames_displayNumber 8 _ (by decide) hmv]
  obtain ⟨k1, k2, k3⟩ := key 2048 (by decide)
  refine ⟨(key v hv).1, (key v hv).2.1, (key v hv).2.2, ?_, ?_⟩
  · rw [k2]
    decide
  · rw [k3]
    decide

/-- Witness for C9 at the full-scale sample `v = 4095`. -/
theorem voltage_end_to_end_witness :
    4095 ≤ 4095 ∧
    (mainLoopBody Arrivals.quiet 0 (runAdcI (List.replicate 1024 4095) State.init)).shown
      = some ((4095 * 2500) >>> 12) :=
  ⟨by decide, (voltage_end_to_end 4095 (by decide)).2.1⟩

end DcVoltage

/-! ## The period capture and the frequency loop -/

namespace FrequencyCounter

open Display

theorem serveAll_nil (d : Decl) (s : State) : serveAll d [] s = s := rfl

theorem serveAll_cons (d : Decl) (q : Irq) (qs : List Irq) (s : State) :
    serveAll d (q :: qs) s = serveAll d qs (serve d s q) := rfl

/-- The bit pattern of `(TH0 << 8) | TL0` is the 16-bit timer count. -/
theorem capture_pattern (a b : Nat) :
    (((a % 256) <<< 8) % 2 ^ 16) ||| (b % 256) = (a % 256) * 256 + b % 256 := by
  have hb : b % 256 < 2 ^ 8 := by omega
  have h := Nat.mul_add_lt_is_or hb (a % 256)
  have e : ((a % 256) <<< 8) % 2 ^ 16 = 2 ^ 8 * (a % 256) := by
    rw [Nat.shiftLeft_eq]
    omega
  rw [e, ← h]
  omega

theorem intToUint32_low (p : Nat) (h : p < 2 ^ 15) : intToUint32 p = p := by
  have e : p % 2 ^ 16 = p := Nat.mod_eq_of_lt (by omega)
  simp only [intToUint32, e, h, if_true]

theorem intToUint32_high (p : Nat) (h1 : 2 ^ 15 ≤ p) (h2 : p < 2 ^ 16) :
    intToUint32 p = p + (2 ^ 32 - 2 ^ 16) := by
  have e : p % 2 ^ 16 = p := Nat.mod_eq_of_lt h2
  have hn : ¬ p < 2 ^ 15 := by omega
  simp only [intToUint32, e, hn, if_false]

/-- The value `INT0ISR` leaves in `currentCount`. -/
theorem INT0ISR_currentCount (s : State) :
    (INT0ISR s).currentCount
      = (intToUint32 ((s.TH0 % 256) * 256 + s.TL0 % 256) + (s.overflowCount * 65536) % 2 ^ 32)
          % 2 ^ 32 := by
  simp only [INT0ISR, capture_pattern]

/-- Overflow chaining for readings below 32768 (`TH0 < 128`): `currentCount`
is `t + k * 65536` as a 32-bit value. -/
theorem INT0ISR_currentCount_low (s : State) (hTH : s.TH0 < 128) (hTL : s.TL0 < 256) :
    (INT0ISR s).currentCount
      = (s.TH0 * 256 + s.TL0 + s.overflowCount * 65536) % 2 ^ 32 := by
  have e1 : s.TH0 % 256 = s.TH0 := Nat.mod_eq_of_lt (by omega)
  have e2 : s.TL0 % 256 = s.TL0 := Nat.mod_eq_of_lt hTL
  rw [INT0ISR_currentCount, e1, e2, intToUint32_low _ (by omega)]
  omega

/-- For readings from 32768 on (`TH0 >= 128`) the 16-bit `int` is negative and
its conversion to `uint32` adds `0xFFFF0000`: `currentCount` is not
`t + k * 65536`. -/
theorem INT0ISR_currentCount_high (s : State) (hTH1 : 128 ≤ s.TH0) (hTH2 : s.TH0 < 256)
    (hTL : s.TL0 < 256) :
    (INT0ISR s).currentCount
      = (s.TH0 * 256 + s.TL0 + 0xFFFF0000 + s.overflowCount * 65536) % 2 ^ 32 ∧
    (INT0ISR s).currentCount ≠ (s.TH0 * 256 + s.TL0 + s.overflowCount * 65536) % 2 ^ 32 := by
  have e1 : s.TH0 % 256 = s.TH0 := Nat.mod_eq_of_lt hTH2
  have e2 : s.TL0 % 256 = s.TL0 := Nat.mod_eq_of_lt hTL
  rw [INT0ISR_currentCount, e1, e2, intToUint32_high _ (by omega) (by omega)]
  constructor <;> omega

/-- C3.  Overflow chaining: evaluation of `INT0ISR` at `TH0 = 0x80`, `TL0 = 0`,
`overflowCount = 0`.  The reading is `t = 32768`, so `t + k * 65536 = 32768`,
and the handler leaves `0xFFFF8000 = 4294934528` in `currentCount`; at `k = 1`,
`t = 100` it leaves 65636. -/
theorem INT0ISR_high_reading :
    (INT0ISR { State.init with TH0 := 0x80, TL0 := 0x00, overflowCount := 0 }).currentCount
      = 4294934528 ∧
    (0x80 * 256 + 0x00 + 0 * 65536) % 2 ^ 32 = 32768 ∧
    (INT0ISR { State.init with TH0 := 0x00, TL0 := 100, overflowCount := 1 }).currentCount
      = 65636 := by
  decide

/-- One edge served when the timer count is `t` and no overflow is pending. -/
theorem serve_edge (d : Decl) (t : Nat) (s : State) (hov : s.overflowCount = 0) :
    serve d s (Irq.edge t)
      = { halfPulseCount := (s.halfPulseCount + 1) % 2 ^ 16,
          halfPulseSum := (s.halfPulseSum + intToUint32 (t % 65536)) % 2 ^ 32,
          currentCount := intToUint32 (t % 65536),
          overflowCount := 0, N := s.N, frequency := s.frequency, TH0 := 0, TL0 := 0 } := by
  have hp : (t / 256 % 256) % 256 * 256 + (t % 256) % 256 = t % 65536 := by omega
  have hlt : intToUint32 (t % 65536) < 2 ^ 32 := by
    simp only [intToUint32]
    split <;> omega
  have hcc : (intToUint32 (t % 65536) + 0 * 65536 % 2 ^ 32) % 2 ^ 32
      = intToUint32 (t % 65536) := by
    omega
  simp only [serve, INT0ISR, timerReads, capture_pattern, hp, hov, hcc]

/-- A run of `n` edges, each served when the timer count is `t`, with no
overflow pending at the start. -/
theorem serveAll_edges (d : Decl) (t n : Nat) (s : State) (hov : s.overflowCount = 0)
    (hsum : s.halfPulseSum < 2 ^ 32) (hcount : s.halfPulseCount < 2 ^ 16) :
    (serveAll d (List.replicate n (Irq.edge t)) s).halfPulseSum
      = (s.halfPulseSum + n * intToUint32 (t % 65536)) % 2 ^ 32 ∧
    (serveAll d (List.replicate n (Irq.edge t)) s).halfPulseCount
      = (s.halfPulseCount + n) % 2 ^ 16 ∧
    (serveAll d (List.replicate n (Irq.edge t)) s).overflowCount = 0 := by
  induction n generalizing s with
  | zero =>
    simp only [List.replicate_zero, serveAll_nil, Nat.zero_mul, Nat.add_zero,
      Nat.mod_eq_of_lt hsum, Nat.mod_eq_of_lt hcount, hov, and_self]
  | succ n ih =>
    rw [List.replicate_succ, serveAll_cons, serve_edge d t s hov]
    obtain ⟨h1, h2, h3⟩ := ih
      { halfPulseCount := (s.halfPulseCount + 1) % 2 ^ 16,
        halfPulseSum := (s.halfPulseSum + intToUint32 (t % 65536)) % 2 ^ 32,
        currentCount := intToUint32 (t % 65536),
        overflowCount := 0, N := s.N, frequency := s.frequency, TH0 := 0, TL0 := 0 }
      rfl (by simp only; omega) (by simp only; omega)
    rw [h1, h2, h3, Nat.succ_mul]
    refine ⟨?_, ?_, rfl⟩
    · simp only
      omega
    · simp only
      omega

/-- What a triggered pass hands `displayNumber` and writes to the link, for any
declared widths: the pass stops at the division when `N` is 0. -/
theorem frequencyBody_shown (d : Decl) (irq : Arrivals) (l : Locals) (s : State)
    (hcount : s.halfPulseCount = 512) (hcopy : irq.beforeCopy = []) :
    (mainLoopBody d irq l s).map (fun p => (p.shown, frames p.spi))
      = if ((((s.halfPulseSum >>> 9) % 2 ^ 16) <<< 1) % 2 ^ 16) % 2 ^ d.NBits = 0 then none
        else some
          (some ((((FCLOCK / (((((s.halfPulseSum >>> 9) % 2 ^ 16) <<< 1) % 2 ^ 16) % 2 ^ d.NBits))
            % 2 ^ 32) % 2 ^ d.frequencyBits) % 2 ^ 16),
           frames (displayNumber NUM_DIGITS
            ((((FCLOCK / (((((s.halfPulseSum >>> 9) % 2 ^ 16) <<< 1) % 2 ^ 16) % 2 ^ d.NBits))
              % 2 ^ 32) % 2 ^ d.frequencyBits) % 2 ^ 16))) := by
  simp only [mainLoopBody, hcount, NUM_PULSE_SAMPLES, if_true, hcopy, serveAll_nil]
  split <;> rfl

/-- The values one triggered pass computes from the sum it copies, when the
average `h` has `85 <= h <= 32767` and `N` and `frequency` are declared with at
least 16 bits. -/
theorem frequencyBody_triggered (d : Decl) (irq : Arrivals) (l : Locals) (s : State)
    (hN : 16 ≤ d.NBits) (hF : 16 ≤ d.frequencyBits)
    (hcount : s.halfPulseCount = 512) (hcopy : irq.beforeCopy = [])
    (hlo : 85 ≤ s.halfPulseSum >>> 9) (hhi : s.halfPulseSum >>> 9 ≤ 32767) :
    ∃ p, mainLoopBody d irq l s = some p ∧
      p.locals.halfPulseAverage = s.halfPulseSum >>> 9 ∧
      p.state.N = 2 * (s.halfPulseSum >>> 9) ∧
      p.state.frequency = 11059200 / (2 * (s.halfPulseSum >>> 9)) ∧
      p.shown = some (11059200 / (2 * (s.halfPulseSum >>> 9))) ∧
      p.spi = displayNumber 6 (11059200 / (2 * (s.halfPulseSum >>> 9))) := by
  have hpN : 2 ^ 16 ≤ 2 ^ d.NBits := Nat.pow_le_pow_right (by decide) hN
  have hpF : 2 ^ 16 ≤ 2 ^ d.frequencyBits := Nat.pow_le_pow_right (by decide) hF
  have e1 : (s.halfPulseSum >>> 9) % 2 ^ 16 = s.halfPulseSum >>> 9 :=
    Nat.mod_eq_of_lt (by omega)
  have e2 : ((s.halfPulseSum >>> 9) <<< 1) % 2 ^ 16 = 2 * (s.halfPulseSum >>> 9) := by
    rw [Nat.shiftLeft_eq]
    omega
  have e3 : (2 * (s.halfPulseSum >>> 9)) % 2 ^ d.NBits = 2 * (s.halfPulseSum >>> 9) :=
    Nat.mod_eq_of_lt (by omega)
  have hne : ¬ 2 * (s.halfPulseSum >>> 9) = 0 := by omega
  have hq : 11059200 / (2 * (s.halfPulseSum >>> 9)) < 65536 :=
    Nat.div_lt_of_lt_mul (by omega)
  have e4 : (11059200 / (2 * (s.halfPulseSum >>> 9))) % 2 ^ 32
      = 11059200 / (2 * (s.halfPulseSum >>> 9)) := Nat.mod_eq_of_lt (by omega)
  have e5 : (11059200 / (2 * (s.halfPulseSum >>> 9))) % 2 ^ d.frequencyBits
      = 11059200 / (2 * (s.halfPulseSum >>> 9)) := Nat.mod_eq_of_lt (by omega)
  have e6 : (11059200 / (2 * (s.halfPulseSum >>> 9))) % 2 ^ 16
      = 11059200 / (2 * (s.halfPulseSum >>> 9)) := Nat.mod_eq_of_lt (by omega)
  simp only [mainLoopBody, hcount, NUM_PULSE_SAMPLES, if_true, hcopy, serveAll_nil, e1, e2, e3,
    hne, if_false, FCLOCK, e4, e5, e6, NUM_DIGITS]
  exact ⟨_, rfl, rfl, rfl, rfl, rfl, rfl⟩

/-- C4.  Frequency law: evaluation of one pass at `halfPulseCount == 512` with
average half-period `h = 40000`.  The full period is `2h = 80000` and the
quotient `11059200 / 80000` is 138; the 16-bit shift `halfPulseAverage << 1`
leaves `N = 80000 mod 65536 = 14464`, against the comment "number of clock
cycles in 1 full period", and `displayNumber` receives 764.  At the other end,
with `h = 1`, the quotient 5529600 does not fit the `uint16` parameter of
`displayNumber`, which receives `5529600 mod 65536 = 24576`. -/
theorem frequency_law_fails :
    (mainLoopBody Decl.wide Arrivals.quiet { halfPulseAverage := 0, halfPulseSumCopy := 0 }
        { State.init with halfPulseCount := 512, halfPulseSum := 512 }).map
          (fun p => (p.state.N, p.shown)) = some (2, some 24576) ∧
    512 >>> 9 = 1 ∧ 11059200 / (2 * 1) = 5529600 ∧
    (mainLoopBody Decl.wide Arrivals.quiet { halfPulseAverage := 0, halfPulseSumCopy := 0 }
        { State.init with halfPulseCount := 512, halfPulseSum := 512 * 40000 }).map
          (fun p => (p.state.N, p.shown)) = some (14464, some 764) ∧
    (512 * 40000) >>> 9 = 40000 ∧ 2 * 40000 = 80000 ∧ 11059200 / 80000 = 138 := by
  decide

/-- Where the 16-bit variables hold the values, the pass does compute the
frequency law: in a state with `halfPulseCount == 512` whose average
half-period `h = halfPulseSum >> 9` has `85 <= h <= 32767`, with `N` and
`frequency` declared at least 16 bits wide, one pass of the loop body (no edge
served between the test and the copy) computes the full period `N = 2h` and
hands `displayNumber` exactly the integer quotient `11059200 / (2h)`. -/
theorem frequency_law (d : Decl) (irq : Arrivals) (l : Locals) (s : State)
    (hN : 16 ≤ d.NBits) (hF : 16 ≤ d.frequencyBits)
    (hcount : s.halfPulseCount = 512) (hcopy : irq.beforeCopy = [])
    (hlo : 85 ≤ s.halfPulseSum >>> 9) (hhi : s.halfPulseSum >>> 9 ≤ 32767) :
    ∃ p, mainLoopBody d irq l s = some p ∧
      p.locals.halfPulseAverage = s.halfPulseSum >>> 9 ∧
      p.state.N = 2 * (s.halfPulseSum >>> 9) ∧
      p.shown = some (11059200 / (2 * (s.halfPulseSum >>> 9))) := by
  obtain ⟨p, hp, h1, h2, _, h4, _⟩ := frequencyBody_triggered d irq l s hN hF hcount hcopy hlo hhi
  exact ⟨p, hp, h1, h2, h4⟩

/-- Instance of `frequency_law` at `h = 4800`. -/
theorem frequency_law_witness :
    16 ≤ Decl.wide.NBits ∧ 16 ≤ Decl.wide.frequencyBits ∧ (512 : Nat) = 512 ∧
    Arrivals.quiet.beforeCopy = [] ∧ 85 ≤ (512 * 4800) >>> 9 ∧ (512 * 4800) >>> 9 ≤ 32767 ∧
    ∃ p, mainLoopBody Decl.wide Arrivals.quiet { halfPulseAverage := 0, halfPulseSumCopy := 0 }
          { State.init with halfPulseCount := 512, halfPulseSum := 512 * 4800 } = some p ∧
      p.locals.halfPulseAverage = (512 * 4800) >>> 9 ∧
      p.state.N = 2 * ((512 * 4800) >>> 9) ∧
      p.shown = some (11059200 / (2 * ((512 * 4800) >>> 9))) :=
  ⟨by decide, by decide, rfl, rfl, by decide, by decide,
    frequency_law Decl.wide Arrivals.quiet { halfPulseAverage := 0, halfPulseSumCopy := 0 }
      { State.init with halfPulseCount := 512, halfPulseSum := 512 * 4800 }
      (by decide) (by decide) rfl rfl (by decide) (by decide)⟩

/-- C5.  Division by zero: whatever the declared widths, in a state with
`halfPulseCount == 512` and `halfPulseSum < 512` (average half-period 0, so
`N == 0`) the pass does not skip the scale step: it evaluates `FCLOCK/N` with
`N == 0`. -/
theorem zero_period_reaches_division (d : Decl) (irq : Arrivals) (l : Locals) (s : State)
    (hcount : s.halfPulseCount = 512) (hcopy : irq.beforeCopy = [])
    (hS : s.halfPulseSum < 512) :
    mainLoopBody d irq l s = none := by
  have h0 : s.halfPulseSum >>> 9 = 0 := by
    rw [Nat.shiftRight_eq_div_pow]
    omega
  simp only [mainLoopBody, hcount, NUM_PULSE_SAMPLES, if_true, hcopy, serveAll_nil, h0,
    Nat.zero_mod, Nat.zero_shiftLeft]

/-- Witness for C5 at `halfPulseSum = 0`. -/
theorem zero_period_reaches_division_witness :
    (512 : Nat) = 512 ∧ Arrivals.quiet.beforeCopy = [] ∧ 0 < 512 ∧
    mainLoopBody Decl.wide Arrivals.quiet { halfPulseAverage := 0, halfPulseSumCopy := 0 }
      { State.init with halfPulseCount := 512, halfPulseSum := 0 } = none :=
  ⟨rfl, rfl, by decide,
    zero_period_reaches_division Decl.wide Arrivals.quiet
      { halfPulseAverage := 0, halfPulseSumCopy := 0 }
      { State.init with halfPulseCount := 512, halfPulseSum := 0 } rfl rfl (by decide)⟩

/-- The same division by zero from the zeroed state: 512 edges each served at
timer reading 32768 give the `uint16` average 32768, whose 16-bit doubling is
`N == 0`. -/
theorem half_period_32768_reaches_division :
    mainLoopBody Decl.wide Arrivals.quiet { halfPulseAverage := 0, halfPulseSumCopy := 0 }
      (serveAll Decl.wide (List.replicate 512 (Irq.edge 32768)) State.init) = none := by
  have h := serveAll_edges Decl.wide 32768 512 State.init rfl (by decide) (by decide)
  have hs := frequencyBody_shown Decl.wide Arrivals.quiet
    { halfPulseAverage := 0, halfPulseSumCopy := 0 }
    (serveAll Decl.wide (List.replicate 512 (Irq.edge 32768)) State.init)
    (h.2.1.trans (by decide)) rfl
  rw [h.1] at hs
  exact Option.map_eq_none.mp (hs.trans (by decide))

/-- C10.  End-to-end frequency pipeline: evaluation at reading `d = 40000`.
From the zeroed state, 512 edges each served at timer count 40000 with no
overflow pending, then one pass of the loop body: the full period is
`2d = 80000` and the quotient `11059200 / 80000` is 138, but `INT0ISR`
sign-extends each reading and the 16-bit doubling wraps, so the display
receives 764, the digits 4, 6, 7, 0, 0, 0 on addresses `1 .. 6`.  At the other
end, for `d = 1`, the quotient is 5529600 and the display receives the digits
of `5529600 mod 65536 = 24576`. -/
theorem frequency_end_to_end_fails :
    (mainLoopBody Decl.wide Arrivals.quiet { halfPulseAverage := 0, halfPulseSumCopy := 0 }
        (serveAll Decl.wide (List.replicate 512 (Irq.edge 1)) State.init)).map
          (fun p => (p.shown, frames p.spi))
      = some (some 24576, [(1, 6), (2, 7), (3, 5), (4, 4), (5, 2), (6, 0)]) ∧
    11059200 / (2 * 1) = 5529600 ∧
    (List.range 6).map (fun j => (j + 1, 5529600 / 10 ^ j % 10))
      = [(1, 0), (2, 0), (3, 6), (4, 9), (5, 2), (6, 5)] ∧
    (mainLoopBody Decl.wide Arrivals.quiet { halfPulseAverage := 0, halfPulseSumCopy := 0 }
        (serveAll Decl.wide (List.replicate 512 (Irq.edge 40000)) State.init)).map
          (fun p => (p.shown, frames p.spi))
      = some (some 764, [(1, 4), (2, 6), (3, 7), (4, 0), (5, 0), (6, 0)]) ∧
    11059200 / (2 * 40000) = 138 := by
  have h1 := serveAll_edges Decl.wide 1 512 State.init rfl (by decide) (by decide)
  have h2 := serveAll_edges Decl.wide 40000 512 State.init rfl (by decide) (by decide)
  rw [frequencyBody_shown _ _ _ _ (h1.2.1.trans (by decide)) rfl, h1.1,
    frequencyBody_shown _ _ _ _ (h2.2.1.trans (by decide)) rfl, h2.1]
  decide

/-- Where the 16-bit variables hold the values, the pipeline does what the
spec describes: from the zeroed state, for a timer reading `d` with
`85 <= d <= 32767` and `N`, `frequency` declared at least 16 bits wide, 512
edges each served at reading `d` with no overflow pending, followed by one
pass of the loop body, give the average half-period `d`, the full period `2d`,
and send the decimal digits of `11059200 / (2d)` to addresses `1 .. 6`; for
`d = 4800` the full period is 9600 and the number shown is 1152. -/
theorem frequency_end_to_end (d : Decl) (t : Nat)
    (hN : 16 ≤ d.NBits) (hF : 16 ≤ d.frequencyBits) (hlo : 85 ≤ t) (hhi : t ≤ 32767) :
    (∃ p, mainLoopBody d Arrivals.quiet { halfPulseAverage := 0, halfPulseSumCopy := 0 }
          (serveAll d (List.replicate 512 (Irq.edge t)) State.init) = some p ∧
      p.locals.halfPulseAverage = t ∧
      p.state.N = 2 * t ∧
      p.shown = some (11059200 / (2 * t)) ∧
      frames p.spi = (List.range 6).map (fun j => (j + 1, 11059200 / (2 * t) / 10 ^ j % 10))) ∧
    (∃ p, mainLoopBody d Arrivals.quiet { halfPulseAverage := 0, halfPulseSumCopy := 0 }
          (serveAll d (List.replicate 512 (Irq.edge 4800)) State.init) = some p ∧
      p.state.N = 9600 ∧ p.shown = some 1152) := by
  have key : ∀ w : Nat, 85 ≤ w → w ≤ 32767 →
      ∃ p, mainLoopBody d Arrivals.quiet { halfPulseAverage := 0, halfPulseSumCopy := 0 }
            (serveAll d (List.replicate 512 (Irq.edge w)) State.init) = some p ∧
        p.locals.halfPulseAverage = w ∧
        p.state.N = 2 * w ∧
        p.shown = some (11059200 / (2 * w)) ∧
        frames p.spi
          = (List.range 6).map (fun j => (j + 1, 11059200 / (2 * w) / 10 ^ j % 10)) := by
    intro w hw1 hw2
    obtain ⟨e1, e2, _⟩ := serveAll_edges d w 512 State.init rfl (by decide) (by decide)
    have hcap : intToUint32 (w % 65536) = w := by
      have hm : w % 65536 = w := Nat.mod_eq_of_lt (by omega)
      rw [hm, intToUint32_low _ (by omega)]
    have hsum : (serveAll d (List.replicate 512 (Irq.edge w)) State.init).halfPulseSum
        = 512 * w := by
      rw [e1, hcap]
      simp only [State.init]
      omega
    have hcount : (serveAll d (List.replicate 512 (Irq.edge w)) State.init).halfPulseCount
        = 512 := e2.trans (by decide)
    have havg : (serveAll d (List.replicate 512 (Irq.edge w)) State.init).halfPulseSum >>> 9
        = w := by
      rw [hsum, Nat.shiftRight_eq_div_pow]
      omega
    obtain ⟨p, hp, h1, h2, _, h4, h5⟩ :=
      frequencyBody_triggered d Arrivals.quiet { halfPulseAverage := 0, halfPulseSumCopy := 0 }
        (serveAll d (List.replicate 512 (Irq.edge w)) State.init) hN hF hcount rfl
        (by rw [havg]; exact hw1) (by rw [havg]; exact hw2)
    rw [havg] at h1 h2 h4 h5
    have hq : 11059200 / (2 * w) < 65536 := Nat.div_lt_of_lt_mul (by omega)
    refine ⟨p, hp, h1, h2, h4, ?_⟩
    rw [h5, frames_displayNumber 6 _ (by decide) hq]
  obtain ⟨p, hp, _, h2, h4, _⟩ := key 4800 (by decide) (by decide)
  exact ⟨key t hlo hhi, p, hp, h2, h4⟩

/-- Instance of `frequency_end_to_end` at the smallest reading, `d = 85`. -/
theorem frequency_end_to_end_witness :
    16 ≤ Decl.wide.NBits ∧ 16 ≤ Decl.wide.frequencyBits ∧ 85 ≤ 85 ∧ 85 ≤ 32767 ∧
    ∃ p, mainLoopBody Decl.wide Arrivals.quiet { halfPulseAverage := 0, halfPulseSumCopy := 0 }
          (serveAll Decl.wide (List.replicate 512 (Irq.edge 85)) State.init) = some p ∧
      p.locals.halfPulseAverage = 85 ∧
      p.state.N = 2 * 85 ∧
      p.shown = some (11059200 / (2 * 85)) ∧
      frames p.spi = (List.range 6).map (fun j => (j + 1, 11059200 / (2 * 85) / 10 ^ j % 10)) :=
  ⟨by decide, by decide, by decide, by decide,
    (frequency_end_to_end Decl.wide 85 (by decide) (by decide) (by decide) (by decide)).1⟩

end FrequencyCounter

/-! ## The display link -/

namespace Display

/-- The transcript of a sequence of calls of `sendData` reads back as the
calls, address and data cut to a byte, and reading goes on behind it. -/
theorem frames_calls (calls : List (Nat × Nat)) (rest : List SpiEvent) :
    frames (calls.flatMap (fun c => sendData c.1 c.2) ++ rest)
      = calls.map (fun c => (c.1 % 256, c.2 % 256)) ++ frames rest := by
  induction calls with
  | nil => simp
  | cons c cs ih =>
    have e : c.2 % 65536 % 256 = c.2 % 256 := Nat.mod_mod_of_dvd c.2 (by decide)
    rw [List.flatMap_cons, List.append_assoc, frames_sendData_append, ih, e]
    simp

theorem length_calls (calls : List (Nat × Nat)) :
    (calls.flatMap (fun c => sendData c.1 c.2)).length = 4 * calls.length := by
  induction calls with
  | nil => simp
  | cons c cs ih =>
    rw [List.flatMap_cons, List.length_append, ih, List.length_cons]
    simp only [sendData, List.length_cons, List.length_nil]
    omega

/-- The calls of `sendData` that `displayNumber` makes, as a list of pairs. -/
theorem displayNumber_as_calls (N v : Nat) (hv : v < 65536) :
    displayNumber N v
      = ((List.range N).map (fun j => (j + 1, v / 10 ^ j % 10))).flatMap
          (fun c => sendData c.1 c.2) := by
  rw [displayNumber_calls N v hv, List.flatMap_map]

/-- C16.  Display transaction framing: `sendData(a, v)` writes exactly chip
select low, the byte `a`, the byte `v mod 256`, chip select high, so chip
select is high again when the call returns; the transcript of any sequence of
calls has four events per call and reads back, whatever follows it, as the
two-byte transactions of the calls, address before data. -/
theorem sendData_framing (a v : Nat) (calls : List (Nat × Nat)) (rest : List SpiEvent) :
    sendData a v
      = [SpiEvent.LOAD 0, SpiEvent.SPIDAT (a % 256), SpiEvent.SPIDAT (v % 256),
          SpiEvent.LOAD 1] ∧
    (sendData a v).getLast? = some (SpiEvent.LOAD 1) ∧
    (calls.flatMap (fun c => sendData c.1 c.2)).length = 4 * calls.length ∧
    frames (calls.flatMap (fun c => sendData c.1 c.2))
      = calls.map (fun c => (c.1 % 256, c.2 % 256)) ∧
    frames (calls.flatMap (fun c => sendData c.1 c.2) ++ rest)
      = calls.map (fun c => (c.1 % 256, c.2 % 256)) ++ frames rest := by
  have e : v % 65536 % 256 = v % 256 := Nat.mod_mod_of_dvd v (by decide)
  have h := frames_calls calls []
  simp only [List.append_nil, frames] at h
  refine ⟨?_, ?_, length_calls calls, h, frames_calls calls rest⟩
  · simp only [sendData, e]
  · simp only [sendData, List.getLast?_cons_cons, List.getLast?_singleton]

/-- The digit at position `j + 1` of a value below `10 ^ j` is sent as 0. -/
theorem frames_displayNumber_zero (N v j : Nat) (hN : N ≤ 255) (hv : v < 65536)
    (hj : j < N) (hsmall : v < 10 ^ j) :
    (frames (displayNumber N v))[j]? = some (j + 1, 0) := by
  rw [frames_displayNumber N v hN hv, List.getElem?_map, List.getElem?_range hj]
  simp only [Option.map_some', Nat.div_eq_of_lt hsmall, Nat.zero_mod]

/-- C17.  Leading zeros: for a 16-bit `v` and `N = NUM_DIGITS` of either
program, every position `i` in `1 .. N` with `10 ^ (i - 1) > v` receives the
data value 0 at address `i`; positions 6, 7 and 8 of the voltage display and
position 6 of the frequency display always receive 0, and `displayNumber(0)`
sends 0 to every address. -/
theorem leading_zeros (N v : Nat)
    (hN : N = DcVoltage.NUM_DIGITS ∨ N = FrequencyCounter.NUM_DIGITS) (hv : v < 65536) :
    (∀ i, 1 ≤ i → i ≤ N → v < 10 ^ (i - 1) →
      (frames (displayNumber N v))[i - 1]? = some (i, 0)) ∧
    (frames (displayNumber DcVoltage.NUM_DIGITS v))[5]? = some (6, 0) ∧
    (frames (displayNumber DcVoltage.NUM_DIGITS v))[6]? = some (7, 0) ∧
    (frames (displayNumber DcVoltage.NUM_DIGITS v))[7]? = some (8, 0) ∧
    (frames (displayNumber FrequencyCounter.NUM_DIGITS v))[5]? = some (6, 0) ∧
    frames (displayNumber N 0) = (List.range N).map (fun j => (j + 1, 0)) := by
  have hN255 : N ≤ 255 := by
    rcases hN with h | h <;> rw [h] <;> decide
  refine ⟨?_, ?_, ?_, ?_, ?_, ?_⟩
  · intro i h1 h2 hsmall
    have h := frames_displayNumber_zero N v (i - 1) hN255 hv (by omega) hsmall
    have e : i - 1 + 1 = i := by omega
    rw [e] at h
    exact h
  · exact frames_displayNumber_zero 8 v 5 (by decide) hv (by decide) (by omega)
  · exact frames_displayNumber_zero 8 v 6 (by decide) hv (by decide) (by omega)
  · exact frames_displayNumber_zero 8 v 7 (by decide) hv (by decide) (by omega)
  · exact frames_displayNumber_zero 6 v 5 (by decide) hv (by decide) (by omega)
  · rw [frames_displayNumber N 0 hN255 (by decide)]
    apply List.map_congr_left
    intro j _
    simp only [Nat.zero_div, Nat.zero_mod]

/-- Witness for C17 at `N = 6`, `v = 1152`: positions 5 and 6 are blank. -/
theorem leading_zeros_witness :
    (6 = DcVoltage.NUM_DIGITS ∨ 6 = FrequencyCounter.NUM_DIGITS) ∧ 1152 < 65536 ∧
    (1 ≤ 5 ∧ 5 ≤ 6 ∧ 1152 < 10 ^ (5 - 1)) ∧
    (frames (displayNumber 6 1152))[5 - 1]? = some (5, 0) :=
  ⟨Or.inr rfl, by decide, ⟨by decide, by decide, by decide⟩,
    (leading_zeros 6 1152 (Or.inr rfl) (by decide)).1 5 (by decide) (by decide) (by decide)⟩

end Display

namespace Display

/-- The calls that `displayNumber` makes go to the digit registers
`1 .. NUM_DIGITS` and carry decimal digits. -/
theorem displayNumber_digit_calls (N v : Nat) (hv : v < 65536) :
    ∃ calls : List (Nat × Nat),
      displayNumber N v = calls.flatMap (fun c => sendData c.1 c.2) ∧
      ∀ c ∈ calls, 1 ≤ c.1 ∧ c.1 ≤ N ∧ c.2 ≤ 9 := by
  refine ⟨_, displayNumber_as_calls N v hv, ?_⟩
  intro c hc
  rw [List.mem_map] at hc
  obtain ⟨j, hj, hjc⟩ := hc
  have hlt : j < N := List.mem_range.mp hj
  rw [← hjc]
  simp only
  omega

/-- Calls to digit registers with decimal digits read back unchanged. -/
theorem map_byte_digit_calls (N : Nat) (hN : N ≤ 255) (calls : List (Nat × Nat))
    (h : ∀ c ∈ calls, 1 ≤ c.1 ∧ c.1 ≤ N ∧ c.2 ≤ 9) :
    calls.map (fun c => (c.1 % 256, c.2 % 256)) = calls := by
  have hid : calls.map (fun c => (c.1 % 256, c.2 % 256)) = calls.map id := by
    apply List.map_congr_left
    intro c hc
    obtain ⟨_, h2, h3⟩ := h c hc
    have e1 : c.1 % 256 = c.1 := Nat.mod_eq_of_lt (by omega)
    have e2 : c.2 % 256 = c.2 := Nat.mod_eq_of_lt (by omega)
    simp only [e1, e2, id]
  rw [hid, List.map_id]

/-- The five calls of `setupDisplay`, as a list of pairs. -/
theorem setupDisplay_as_calls (N : Nat) :
    setupDisplay N
      = [(9, 255), (12, 1), (15, 0), (10, N), (11, N - 1)].flatMap
          (fun c => sendData c.1 c.2) := by
  simp only [setupDisplay, DECODE_ADDR, SHUTDOWN_ADDR, DISPLAY_ADDR, INTENSITY_ADDR,
    SCAN_LIMIT_ADDR, List.flatMap_cons, List.flatMap_nil, List.append_nil, List.append_assoc]

end Display

namespace DcVoltage

open Display

theorem voltageBody_spi (irq : Arrivals) (avg : Nat) (s : State) :
    (mainLoopBody irq avg s).spi = [] ∨
    ∃ v, v < 65536 ∧ (mainLoopBody irq avg s).spi = displayNumber 8 v := by
  simp only [mainLoopBody]
  split
  · exact Or.inr ⟨_, Nat.mod_lt _ (by decide), rfl⟩
  · exact Or.inl rfl

/-- Every turn of the loop writes digit transactions only. -/
theorem voltage_whileLoop_calls (turns : List Turn) (avg : Nat) (s : State) :
    ∃ calls : List (Nat × Nat),
      whileLoop turns avg s = calls.flatMap (fun c => sendData c.1 c.2) ∧
      ∀ c ∈ calls, 1 ≤ c.1 ∧ c.1 ≤ 8 ∧ c.2 ≤ 9 := by
  induction turns generalizing avg s with
  | nil => exact ⟨[], rfl, by simp⟩
  | cons t ts ih =>
    obtain ⟨cs, hcs, hdig⟩ := ih (mainLoopBody t.during avg (runAdcI t.before s)).sampleAverage
      (mainLoopBody t.during avg (runAdcI t.before s)).state
    rcases voltageBody_spi t.during avg (runAdcI t.before s) with h | ⟨v, hv, h⟩
    · refine ⟨cs, ?_, hdig⟩
      simp only [whileLoop, h, List.nil_append, hcs]
    · obtain ⟨ds, hds, hddig⟩ := displayNumber_digit_calls 8 v hv
      refine ⟨ds ++ cs, ?_, ?_⟩
      · simp only [whileLoop, h, hds, hcs, List.flatMap_append]
      · intro c hc
        rcases List.mem_append.mp hc with hc | hc
        · exact hddig c hc
        · exact hdig c hc

end DcVoltage

namespace FrequencyCounter

open Display

theorem frequencyBody_spi (d : Decl) (irq : Arrivals) (l : Locals) (s : State) (p : Pass)
    (hp : mainLoopBody d irq l s = some p) :
    p.spi = [] ∨ ∃ v, v < 65536 ∧ p.spi = displayNumber 6 v := by
  simp only [mainLoopBody] at hp
  split at hp
  · split at hp
    · exact absurd hp (by simp)
    · rw [Option.some.injEq] at hp
      rw [← hp]
      exact Or.inr ⟨_, Nat.mod_lt _ (by decide), rfl⟩
  · rw [Option.some.injEq] at hp
    rw [← hp]
    exact Or.inl rfl

/-- Every turn of the loop writes digit transactions only. -/
theorem frequency_whileLoop_calls (d : Decl) (turns : List Turn) (l : Locals) (s : State) :
    ∃ calls : List (Nat × Nat),
      whileLoop d turns l s = calls.flatMap (fun c => sendData c.1 c.2) ∧
      ∀ c ∈ calls, 1 ≤ c.1 ∧ c.1 ≤ 6 ∧ c.2 ≤ 9 := by
  induction turns generalizing l s with
  | nil => exact ⟨[], rfl, by simp⟩
  | cons t ts ih =>
    cases hb : mainLoopBody d t.during l (serveAll d t.before s) with
    | none => exact ⟨[], by simp only [whileLoop, hb, List.flatMap_nil], by simp⟩
    | some p =>
      obtain ⟨cs, hcs, hdig⟩ := ih p.locals p.state
      rcases frequencyBody_spi d t.during l (serveAll d t.before s) p hb with h | ⟨v, hv, h⟩
      · refine ⟨cs, ?_, hdig⟩
        simp only [whileLoop, hb, h, List.nil_append, hcs]
      · obtain ⟨ds, hds, hddig⟩ := displayNumber_digit_calls 6 v hv
        refine ⟨ds ++ cs, ?_, ?_⟩
        · simp only [whileLoop, hb, h, hds, hcs, List.flatMap_append]
        · intro c hc
          rcases List.mem_append.mp hc with hc | hc
          · exact hddig c hc
          · exact hdig c hc

end FrequencyCounter

namespace Display

/-- C11.  Display initialisation: in both programs `setupDisplay` makes exactly
five calls of `sendData`, with the pairs decode mode `(9, 255)`, shutdown
`(12, 1)`, display test `(15, 0)`, intensity `(10, NUM_DIGITS)` and scan limit
`(11, NUM_DIGITS - 1)`, `NUM_DIGITS` being 8 in the voltage program and 6 in
the frequency program; what `main` writes is these five transactions once,
followed by the transactions of the loop, which all go to digit registers. -/
theorem setupDisplay_once (vturns : List DcVoltage.Turn) (d : FrequencyCounter.Decl)
    (early : List FrequencyCounter.Irq) (fturns : List FrequencyCounter.Turn) :
    setupDisplay DcVoltage.NUM_DIGITS
      = sendData 9 255 ++ sendData 12 1 ++ sendData 15 0 ++ sendData 10 8 ++ sendData 11 7 ∧
    setupDisplay FrequencyCounter.NUM_DIGITS
      = sendData 9 255 ++ sendData 12 1 ++ sendData 15 0 ++ sendData 10 6 ++ sendData 11 5 ∧
    frames (setupDisplay DcVoltage.NUM_DIGITS)
      = [(9, 255), (12, 1), (15, 0), (10, 8), (11, 7)] ∧
    frames (setupDisplay FrequencyCounter.NUM_DIGITS)
      = [(9, 255), (12, 1), (15, 0), (10, 6), (11, 5)] ∧
    (∃ calls : List (Nat × Nat),
      DcVoltage.main vturns
        = setupDisplay DcVoltage.NUM_DIGITS ++ calls.flatMap (fun c => sendData c.1 c.2) ∧
      (∀ c ∈ calls, 1 ≤ c.1 ∧ c.1 ≤ 8 ∧ c.2 ≤ 9) ∧
      frames (DcVoltage.main vturns)
        = [(9, 255), (12, 1), (15, 0), (10, 8), (11, 7)] ++ calls) ∧
    (∃ calls : List (Nat × Nat),
      FrequencyCounter.main d early fturns
        = setupDisplay FrequencyCounter.NUM_DIGITS
            ++ calls.flatMap (fun c => sendData c.1 c.2) ∧
      (∀ c ∈ calls, 1 ≤ c.1 ∧ c.1 ≤ 6 ∧ c.2 ≤ 9) ∧
      frames (FrequencyCounter.main d early fturns)
        = [(9, 255), (12, 1), (15, 0), (10, 6), (11, 5)] ++ calls) := by
  refine ⟨rfl, rfl, by decide, by decide, ?_, ?_⟩
  · obtain ⟨cs, hcs, hdig⟩ := DcVoltage.voltage_whileLoop_calls vturns 0 DcVoltage.State.init
    refine ⟨cs, ?_, hdig, ?_⟩
    · simp only [DcVoltage.main, hcs]
    · have h := frames_calls cs []
      simp only [List.append_nil, frames] at h
      simp only [DcVoltage.main, hcs, setupDisplay_as_calls, frames_calls, h,
        map_byte_digit_calls 8 (by decide) cs hdig]
      rfl
  · obtain ⟨cs, hcs, hdig⟩ := FrequencyCounter.frequency_whileLoop_calls d fturns
      { halfPulseAverage := 0, halfPulseSumCopy := 0 }
      { FrequencyCounter.serveAll d early FrequencyCounter.State.init with halfPulseCount := 0 }
    refine ⟨cs, ?_, hdig, ?_⟩
    · simp only [FrequencyCounter.main, hcs]
    · have h := frames_calls cs []
      simp only [List.append_nil, frames] at h
      simp only [FrequencyCounter.main, hcs, setupDisplay_as_calls, frames_calls, h,
        map_byte_digit_calls 6 (by decide) cs hdig]
      rfl

end Display

/-! ## The handlers of the frequency counter -/

namespace FrequencyCounter

open Display

theorem serveAll_append (d : Decl) (a b : List Irq) (s : State) :
    serveAll d (a ++ b) s = serveAll d b (serveAll d a s) := by
  simp only [serveAll, List.foldl_append]

/-- A run of `k` wrap-arounds that does not exhaust the type of
`overflowCount` adds `k` to it and leaves the rest of the state. -/
theorem serveAll_overflows (d : Decl) (k : Nat) (s : State)
    (h : s.overflowCount + k < 2 ^ d.overflowCountBits) :
    serveAll d (List.replicate k Irq.overflow) s
      = { s with overflowCount := s.overflowCount + k } := by
  induction k generalizing s with
  | zero => simp only [List.replicate_zero, serveAll_nil, Nat.add_zero]
  | succ k ih =>
    have e : (s.overflowCount + 1) % 2 ^ d.overflowCountBits = s.overflowCount + 1 :=
      Nat.mod_eq_of_lt (by omega)
    rw [List.replicate_succ, serveAll_cons, ih]
    · simp only [serve, T0ISR, e]
      congr 1
      omega
    · simp only [serve, T0ISR, e]
      omega

/-- One edge served when the timer count is `t`, with the pending overflows. -/
theorem serve_edge_pending (d : Decl) (t : Nat) (s : State) :
    serve d s (Irq.edge t)
      = { halfPulseCount := (s.halfPulseCount + 1) % 2 ^ 16,
          halfPulseSum := (s.halfPulseSum
            + (intToUint32 (t % 65536) + (s.overflowCount * 65536) % 2 ^ 32) % 2 ^ 32) % 2 ^ 32,
          currentCount := (intToUint32 (t % 65536) + (s.overflowCount * 65536) % 2 ^ 32) % 2 ^ 32,
          overflowCount := 0, N := s.N, frequency := s.frequency, TH0 := 0, TL0 := 0 } := by
  have hp : (t / 256 % 256) % 256 * 256 + (t % 256) % 256 = t % 65536 := by omega
  simp only [serve, INT0ISR, timerReads, capture_pattern, hp]

/-- One half-pulse of `k` wrap-arounds and an edge at count `t`, with no
overflow pending at the start. -/
theorem serveAll_halfPulse (d : Decl) (k t : Nat) (s : State) (hov : s.overflowCount = 0)
    (hk : k < 2 ^ d.overflowCountBits) :
    serveAll d (halfPulse k t) s
      = { halfPulseCount := (s.halfPulseCount + 1) % 2 ^ 16,
          halfPulseSum := (s.halfPulseSum
            + (intToUint32 (t % 65536) + (k * 65536) % 2 ^ 32) % 2 ^ 32) % 2 ^ 32,
          currentCount := (intToUint32 (t % 65536) + (k * 65536) % 2 ^ 32) % 2 ^ 32,
          overflowCount := 0, N := s.N, frequency := s.frequency, TH0 := 0, TL0 := 0 } := by
  rw [halfPulse, serveAll_append, serveAll_overflows d k s (by omega), serveAll_cons,
    serveAll_nil, serve_edge_pending]
  simp only [hov, Nat.zero_add]

/-- A run of `n` equal half-pulses, with no overflow pending at the start. -/
theorem serveAll_halfPulses (d : Decl) (n k t : Nat) (s : State) (hov : s.overflowCount = 0)
    (hk : k < 2 ^ d.overflowCountBits)
    (hsum : s.halfPulseSum < 2 ^ 32) (hcount : s.halfPulseCount < 2 ^ 16) :
    (serveAll d (halfPulses n k t) s).halfPulseSum
      = (s.halfPulseSum
          + n * ((intToUint32 (t % 65536) + (k * 65536) % 2 ^ 32) % 2 ^ 32)) % 2 ^ 32 ∧
    (serveAll d (halfPulses n k t) s).halfPulseCount = (s.halfPulseCount + n) % 2 ^ 16 ∧
    (serveAll d (halfPulses n k t) s).overflowCount = 0 := by
  induction n generalizing s with
  | zero =>
    simp only [halfPulses, serveAll_nil, Nat.zero_mul, Nat.add_zero,
      Nat.mod_eq_of_lt hsum, Nat.mod_eq_of_lt hcount, hov, and_self]
  | succ n ih =>
    rw [halfPulses, serveAll_append, serveAll_halfPulse d k t s hov hk]
    obtain ⟨h1, h2, h3⟩ := ih
      { halfPulseCount := (s.halfPulseCount + 1) % 2 ^ 16,
        halfPulseSum := (s.halfPulseSum
          + (intToUint32 (t % 65536) + (k * 65536) % 2 ^ 32) % 2 ^ 32) % 2 ^ 32,
        currentCount := (intToUint32 (t % 65536) + (k * 65536) % 2 ^ 32) % 2 ^ 32,
        overflowCount := 0, N := s.N, frequency := s.frequency, TH0 := 0, TL0 := 0 }
      rfl (by simp only; omega) (by simp only; omega)
    rw [h1, h2, h3, Nat.succ_mul]
    refine ⟨?_, ?_, rfl⟩
    · simp only
      omega
    · simp only
      omega

/-- The average a triggered pass stores and what it hands on, for any declared
widths. -/
theorem frequencyBody_average (d : Decl) (irq : Arrivals) (l : Locals) (s : State)
    (hcount : s.halfPulseCount = 512) (hcopy : irq.beforeCopy = []) :
    (mainLoopBody d irq l s).map
        (fun p => (p.locals.halfPulseSumCopy, p.locals.halfPulseAverage, p.shown))
      = if ((((s.halfPulseSum >>> 9) % 2 ^ 16) <<< 1) % 2 ^ 16) % 2 ^ d.NBits = 0 then none
        else some
          (s.halfPulseSum, (s.halfPulseSum >>> 9) % 2 ^ 16,
           some ((((FCLOCK / (((((s.halfPulseSum >>> 9) % 2 ^ 16) <<< 1) % 2 ^ 16) % 2 ^ d.NBits))
            % 2 ^ 32) % 2 ^ d.frequencyBits) % 2 ^ 16)) := by
  simp only [mainLoopBody, hcount, NUM_PULSE_SAMPLES, if_true, hcopy, serveAll_nil]
  split <;> rfl

/-- C13.  Long half-periods: evaluation at `k = 1`, `t = 100`.  From the zeroed
state, 512 half-pulses of one wrap-around and an edge at count 100 each
measure `100 + 65536 = 65636` ticks, and `512 * 65636 < 2 ^ 32`; the pass
copies the exact sum `512 * 65636`, yet the `uint16` variable
`halfPulseAverage` holds 100, not 65636, and the number shown is
`11059200 / 200 = 55296`. -/
theorem long_half_period_truncated :
    (mainLoopBody Decl.wide Arrivals.quiet { halfPulseAverage := 0, halfPulseSumCopy := 0 }
        (serveAll Decl.wide (halfPulses 512 1 100) State.init)).map
          (fun p => (p.locals.halfPulseSumCopy, p.locals.halfPulseAverage, p.shown))
      = some (512 * 65636, 100, some 55296) ∧
    100 + 1 * 65536 = 65636 ∧ 512 * (100 + 1 * 65536) < 2 ^ 32 ∧
    11059200 / (2 * 65636) = 84 := by
  have h := serveAll_halfPulses Decl.wide 512 1 100 State.init rfl (by decide) (by decide)
    (by decide)
  rw [frequencyBody_average _ _ _ _ (h.2.1.trans (by decide)) rfl, h.1]
  decide

/-- C14.  Edge event state update: for every pre-state `INT0ISR` leaves
`overflowCount == 0` and `(TH0, TL0) == (0, 0)`, adds 1 to `halfPulseCount`
modulo `2 ^ 16` and adds the new `currentCount` to `halfPulseSum` modulo
`2 ^ 32`; an edge that follows at timer count `t` with no wrap-around in
between computes its `currentCount` from `t` alone. -/
theorem INT0ISR_update (s : State) (t : Nat) :
    (INT0ISR s).overflowCount = 0 ∧
    (INT0ISR s).TH0 = 0 ∧ (INT0ISR s).TL0 = 0 ∧
    (INT0ISR s).halfPulseCount = (s.halfPulseCount + 1) % 2 ^ 16 ∧
    (INT0ISR s).halfPulseSum = (s.halfPulseSum + (INT0ISR s).currentCount) % 2 ^ 32 ∧
    (INT0ISR (timerReads t (INT0ISR s))).currentCount = intToUint32 (t % 65536) ∧
    (INT0ISR (timerReads t (INT0ISR s))).overflowCount = 0 := by
  have hp : (t / 256 % 256) % 256 * 256 + (t % 256) % 256 = t % 65536 := by omega
  have hlt : intToUint32 (t % 65536) < 2 ^ 32 := by
    simp only [intToUint32]
    split <;> omega
  have hcc : (intToUint32 (t % 65536) + 0 * 65536 % 2 ^ 32) % 2 ^ 32
      = intToUint32 (t % 65536) := by
    omega
  refine ⟨rfl, rfl, rfl, rfl, rfl, ?_, rfl⟩
  simp only [INT0ISR, timerReads, capture_pattern, hp, hcc]

/-- C15.  Overflow event frame: `T0ISR` adds 1 to `overflowCount` in the
unsigned type of that variable, which is exactly 1 more whenever the value is
below the maximum of the type, and changes nothing else: `halfPulseSum`,
`halfPulseCount`, `currentCount`, `N`, `frequency` and the timer registers are
unchanged. -/
theorem T0ISR_frame (d : Decl) (s : State) :
    T0ISR d s = { s with overflowCount := (s.overflowCount + 1) % 2 ^ d.overflowCountBits } ∧
    (s.overflowCount + 1 < 2 ^ d.overflowCountBits →
      (T0ISR d s).overflowCount = s.overflowCount + 1) ∧
    (T0ISR d s).halfPulseSum = s.halfPulseSum ∧
    (T0ISR d s).halfPulseCount = s.halfPulseCount ∧
    (T0ISR d s).currentCount = s.currentCount ∧
    (T0ISR d s).N = s.N ∧ (T0ISR d s).frequency = s.frequency ∧
    (T0ISR d s).TH0 = s.TH0 ∧ (T0ISR d s).TL0 = s.TL0 := by
  refine ⟨rfl, ?_, rfl, rfl, rfl, rfl, rfl, rfl, rfl⟩
  intro h
  exact Nat.mod_eq_of_lt h

/-- Witness for C15 at three pending overflows with an 8-bit `overflowCount`. -/
theorem T0ISR_frame_witness :
    3 + 1 < 2 ^ 8 ∧
    (T0ISR { overflowCountBits := 8, NBits := 16, frequencyBits := 16 }
      { State.init with overflowCount := 3, halfPulseSum := 9600, halfPulseCount := 2 }).overflowCount
      = 3 + 1 :=
  ⟨by decide,
    (T0ISR_frame { overflowCountBits := 8, NBits := 16, frequencyBits := 16 }
      { State.init with overflowCount := 3, halfPulseSum := 9600, halfPulseCount := 2 }).2.1
      (by decide)⟩

/-- C18.  Frequency snapshot post-state: evaluation of one pass triggered at
`halfPulseCount == 512` during which one edge (duration 4800) is served.  The
count reset executes at count 513 and leaves `halfPulseCount == 0`, not
`513 mod 512 = 1`; when the edge falls after `halfPulseSum = 0` its duration
stays in `halfPulseSum`, uncounted. -/
theorem frequency_count_hard_reset :
    (mainLoopBody Decl.wide
        { beforeCopy := [], beforeSumReset := [Irq.edge 4800], beforeCountReset := [] }
        { halfPulseAverage := 0, halfPulseSumCopy := 0 }
        { State.init with halfPulseCount := 512, halfPulseSum := 512 * 4800 }).map
          (fun p => (p.countAtReset, p.state.halfPulseCount, p.state.halfPulseSum))
      = some (513, 0, 0) ∧
    (mainLoopBody Decl.wide
        { beforeCopy := [], beforeSumReset := [], beforeCountReset := [Irq.edge 4800] }
        { halfPulseAverage := 0, halfPulseSumCopy := 0 }
        { State.init with halfPulseCount := 512, halfPulseSum := 512 * 4800 }).map
          (fun p => (p.countAtReset, p.state.halfPulseCount, p.state.halfPulseSum))
      = some (513, 0, 4800) ∧
    513 % 512 = 1 := by
  decide

end FrequencyCounter

/-! ## The voltage snapshot under interrupts -/

namespace DcVoltage

open Display

/-- What one triggered pass copies and what it leaves in `sampleSum`. -/
theorem voltageBody_copy (irq : Arrivals) (avg : Nat) (s : State)
    (hcount : s.sampleCount = 1024) (hsum : s.sampleSum < 2 ^ 32) :
    (mainLoopBody irq avg s).sampleSumCopy
      = (s.sampleSum + (irq.beforeCopy.map readADCSample).sum) % 2 ^ 32 ∧
    (mainLoopBody irq avg s).state.sampleSum
      = (irq.beforeReduce.map readADCSample).sum % 2 ^ 32 := by
  have h4 : (runAdcI irq.beforeReduce
        { runAdcI irq.beforeReset (runAdcI irq.beforeCopy s) with sampleSum := 0 }).sampleSum
      = (irq.beforeReduce.map readADCSample).sum % 2 ^ 32 := by
    rw [runAdcI_sampleSum _ _ (by simp only; omega)]
    simp only [Nat.zero_add]
  simp only [mainLoopBody, hcount, NUM_SAMPLES, if_true, h4, runAdcI_sampleSum _ _ hsum, and_self]

/-- Without an arrival between the copy and `sampleSum = 0`, and without
wrap-around, the snapshot conserves the samples: the copy plus the new
`sampleSum` is the old `sampleSum` plus every sample delivered during the
pass. -/
theorem snapshot_conserves_without_gap (irq : Arrivals) (avg : Nat) (s : State)
    (hcount : s.sampleCount = 1024) (hgap : irq.beforeReset = [])
    (hcopy : s.sampleSum + 4095 * irq.beforeCopy.length < 2 ^ 32)
    (hreduce : 4095 * irq.beforeReduce.length < 2 ^ 32) :
    (mainLoopBody irq avg s).sampleSumCopy + (mainLoopBody irq avg s).state.sampleSum
      = s.sampleSum
        + ((irq.beforeCopy ++ irq.beforeReset ++ irq.beforeReduce).map readADCSample).sum := by
  obtain ⟨h1, h2⟩ := voltageBody_copy irq avg s hcount (by omega)
  have b1 := sum_readADCSample_le irq.beforeCopy
  have b2 := sum_readADCSample_le irq.beforeReduce
  rw [h1, h2, hgap, List.append_nil, List.map_append, List.sum_append,
    Nat.mod_eq_of_lt (by omega), Nat.mod_eq_of_lt (by omega), Nat.add_assoc]

/-- C12.  Snapshot atomicity: evaluation of one interleaving.  From the zeroed
state 1024 samples of value 1 are delivered, then one more sample of value 1
is delivered after the copy of `sampleSum` and before `sampleSum = 0`.  The
samples delivered sum to 1025; the value copied is 1024 and `sampleSum` is 0
after the pass, while `sampleCount` is 1: the sample is lost. -/
theorem snapshot_loses_sample :
    (mainLoopBody { beforeCopy := [], beforeReset := [1], beforeReduce := [] } 0
        (runAdcI (List.replicate 1024 1) State.init)).sampleSumCopy = 1024 ∧
    (mainLoopBody { beforeCopy := [], beforeReset := [1], beforeReduce := [] } 0
        (runAdcI (List.replicate 1024 1) State.init)).state.sampleSum = 0 ∧
    (mainLoopBody { beforeCopy := [], beforeReset := [1], beforeReduce := [] } 0
        (runAdcI (List.replicate 1024 1) State.init)).state.sampleCount = 1 ∧
    ((List.replicate 1024 1 ++ [1]).map readADCSample).sum = 1025 := by
  rw [runAdcI_replicate 1 (by decide)]
  refine ⟨by decide, by decide, by decide, ?_⟩
  have hr : readADCSample 1 = 1 := by decide
  simp only [List.map_append, List.map_replicate, List.sum_append, List.sum_replicate,
    List.map_cons, List.map_nil, List.sum_cons, List.sum_nil, hr, smul_eq_mul]
  decide

/-- C19.  Voltage range invariant: in the state reached from the zeroed state
by `n <= 1024` invocations of `adcI`, `sampleSum` is the exact sum of the
masked samples, at most `4095 * sampleCount` and at most 4193280, below
`2 ^ 32`.  When that state triggers a pass (no sample arriving between the
test and the copy), the average fits `sampleAverage` and is at most 4095, the
product by 2500 is below `2 ^ 32`, the value shown is at most 2499, and the
digit registers 5 to 8 receive 0. -/
theorem voltage_range (xs : List Nat) (irq : Arrivals) (avg : Nat)
    (hN : xs.length ≤ 1024) (hcopy : irq.beforeCopy = []) :
    (runAdcI xs State.init).sampleSum = (xs.map (fun x => x &&& 0x0FFF)).sum ∧
    (runAdcI xs State.init).sampleSum ≤ 4095 * (runAdcI xs State.init).sampleCount ∧
    (runAdcI xs State.init).sampleSum ≤ 4193280 ∧ 4193280 < 2 ^ 32 ∧
    ((runAdcI xs State.init).sampleCount = 1024 →
      (mainLoopBody irq avg (runAdcI xs State.init)).sampleAverage
        = (runAdcI xs State.init).sampleSum >>> 10 ∧
      (mainLoopBody irq avg (runAdcI xs State.init)).sampleAverage ≤ 4095 ∧
      (mainLoopBody irq avg (runAdcI xs State.init)).sampleAverage * 2500 < 2 ^ 32 ∧
      ∃ m, (mainLoopBody irq avg (runAdcI xs State.init)).shown = some m ∧ m ≤ 2499 ∧
        ∀ j, 4 ≤ j → j < 8 →
          (frames (mainLoopBody irq avg (runAdcI xs State.init)).spi)[j]? = some (j + 1, 0)) := by
  have hfun : (fun x => x &&& 0x0FFF) = readADCSample := by
    funext x
    exact (readADCSample_eq_and x).symm
  have hrun := runAdcI_exact xs State.init (by simp only [State.init]; omega)
    (by simp only [State.init]; omega)
  have hle := sum_readADCSample_le xs
  have hs : (runAdcI xs State.init).sampleSum = (xs.map readADCSample).sum := by
    rw [hrun]
    simp only [State.init, Nat.zero_add]
  have hc : (runAdcI xs State.init).sampleCount = xs.length := by
    rw [hrun]
    simp only [State.init, Nat.zero_add]
  refine ⟨by rw [hfun]; exact hs, by rw [hs, hc]; exact hle, by rw [hs]; omega, by decide, ?_⟩
  intro htrig
  have hS : (runAdcI xs State.init).sampleSum ≤ 1024 * 4095 := by
    rw [hs]
    omega
  obtain ⟨h1, _, h3, h4⟩ :=
    voltageBody_triggered irq avg (runAdcI xs State.init) htrig hS hcopy
  have havg : (runAdcI xs State.init).sampleSum >>> 10 ≤ 4095 := by
    rw [Nat.shiftRight_eq_div_pow]
    omega
  have hmv : (((runAdcI xs State.init).sampleSum >>> 10) * 2500) >>> 12 ≤ 2499 := by
    rw [Nat.shiftRight_eq_div_pow (((runAdcI xs State.init).sampleSum >>> 10) * 2500)]
    omega
  refine ⟨h1, by rw [h1]; exact havg, by rw [h1]; omega, _, h3, hmv, ?_⟩
  intro j hj4 hj8
  rw [h4]
  apply frames_displayNumber_zero 8 _ j (by decide) (by omega) hj8
  have hpow : 10 ^ 4 ≤ 10 ^ j := Nat.pow_le_pow_right (by decide) hj4
  omega

/-- Witness for C19 at two samples, one with channel bits set. -/
theorem voltage_range_witness :
    [0xF123, 4095].length ≤ 1024 ∧ Arrivals.quiet.beforeCopy = [] ∧
    (runAdcI [0xF123, 4095] State.init).sampleSum
      ≤ 4095 * (runAdcI [0xF123, 4095] State.init).sampleCount :=
  ⟨by decide, rfl, (voltage_range [0xF123, 4095] Arrivals.quiet 0 (by decide) rfl).2.1⟩

end DcVoltage
